import Mathlib

/-!
# Verification of the iso-game navigation subsystem

A shallow embedding of the navigation core of the `iso-game` repository:

* `IsoUtils` — the isometric coordinate transform
  (`src/game/utils/IsoUtils.ts`), embedded over `ℚ`;
* obstacle generation (`IsoScene.createRandomObstaclePositions`,
  `src/game/scenes/IsoScene.ts`), embedded as a fueled loop over an
  explicit stream of random samples;
* the path planner (`PF.AStarFinder` with `allowDiagonal: true,
  dontCrossCorners: true`), modelled from the spec since the
  `pathfinding` library itself is not part of the repository sources;
* the cube-click branch of `IsoScene.handleClick`;
* the `Character3D` motion/rotation controller (constant-speed waypoint
  following, facing-angle interpolation and arrival snapping), embedded
  over `ℝ`.

The file is organised as definitions first, then lemmas and the claim
theorems (named `cN_...`) with their witnesses.
-/

namespace IsoGame

/-! ## Definitions: coordinate transform (`IsoUtils`) -/

namespace IsoUtils

/-- Function `IsoUtils.isoToScreen`: `x = (isoX - isoY) * tileSize`,
`y = (isoX + isoY) * tileSize / 2`. -/
def isoToScreen (isoX isoY tileSize : ℚ) : ℚ × ℚ :=
  ((isoX - isoY) * tileSize, (isoX + isoY) * tileSize / 2)

/-- Function `IsoUtils.screenToIso`:
`x = (screenX / tileSize + screenY / (tileSize / 2)) / 2`,
`y = (screenY / (tileSize / 2) - screenX / tileSize) / 2`. -/
def screenToIso (screenX screenY tileSize : ℚ) : ℚ × ℚ :=
  ((screenX / tileSize + screenY / (tileSize / 2)) / 2,
   (screenY / (tileSize / 2) - screenX / tileSize) / 2)

end IsoUtils

/-! ## Definitions: obstacle field generation
(`IsoScene.createRandomObstaclePositions`)

The loop draws one random cell per attempt; we embed the stream of draws
`Math.floor(Math.random() * size)` as an explicit function
`rand : ℕ → ℕ × ℕ` from attempt number to the sampled cell. -/

namespace IsoScene

/-- One execution of the `while (placed < obstacleCount && attempts < maxAttempts)`
loop body chain of `createRandomObstaclePositions`.  `fuel` bounds the
recursion; it is instantiated with `maxAttempts`, which dominates the
number of iterations since every iteration increments `attempts`.
Returns the obstacle set together with the number of attempts consumed. -/
def obstacleLoop (size : ℕ) (centerIsoX centerIsoY avoidRadius : ℕ)
    (obstacleCount maxAttempts : ℕ) (rand : ℕ → ℕ × ℕ) :
    ℕ → ℕ → ℕ → List (ℕ × ℕ) → List (ℕ × ℕ) × ℕ
  | 0, attempts, _, obstacles => (obstacles, attempts)
  | fuel + 1, attempts, placed, obstacles =>
    if placed < obstacleCount ∧ attempts < maxAttempts then
      let attempts' := attempts + 1
      let isoX := (rand attempts).1
      let isoY := (rand attempts).2
      -- Skip if already an obstacle
      if (isoX, isoY) ∈ obstacles then
        obstacleLoop size centerIsoX centerIsoY avoidRadius obstacleCount
          maxAttempts rand fuel attempts' placed obstacles
      -- Skip if too close to character starting position
      else if ((isoX : ℤ) - centerIsoX).natAbs ≤ avoidRadius ∧
          ((isoY : ℤ) - centerIsoY).natAbs ≤ avoidRadius then
        obstacleLoop size centerIsoX centerIsoY avoidRadius obstacleCount
          maxAttempts rand fuel attempts' placed obstacles
      else
        obstacleLoop size centerIsoX centerIsoY avoidRadius obstacleCount
          maxAttempts rand fuel attempts' (placed + 1) ((isoX, isoY) :: obstacles)
    else (obstacles, attempts)

/-- Target obstacle count: `Math.floor(totalTiles * 0.075)`; with `0.075`
read as the exact rational `75 / 1000` this is natural division. -/
def obstacleCountOf (extendedGridSize : ℕ) : ℕ :=
  extendedGridSize * extendedGridSize * 75 / 1000

/-- Spawn cell coordinate: `Math.round(extendedGridSize / 2)` (round half
up), i.e. `⌊(extendedGridSize + 1) / 2⌋`. -/
def centerOf (extendedGridSize : ℕ) : ℕ := (extendedGridSize + 1) / 2

/-- Method `IsoScene.createRandomObstaclePositions`: reject-and-retry sampling of
`obstacleCount` cells, skipping duplicates and cells within Chebyshev
radius `1` of the spawn cell, with an attempt budget of
`obstacleCount * 10`.  Returns the obstacle set and the attempts used. -/
def createRandomObstaclePositions (extendedGridSize : ℕ) (rand : ℕ → ℕ × ℕ) :
    List (ℕ × ℕ) × ℕ :=
  let obstacleCount := obstacleCountOf extendedGridSize
  let centerIsoX := centerOf extendedGridSize
  let centerIsoY := centerOf extendedGridSize
  let avoidRadius := 1
  let maxAttempts := obstacleCount * 10
  obstacleLoop extendedGridSize centerIsoX centerIsoY avoidRadius
    obstacleCount maxAttempts rand maxAttempts 0 0 []

end IsoScene

/-! ## Definitions: path planner

Modelled from the spec: the repository calls
`new PF.AStarFinder({ allowDiagonal: true, dontCrossCorners: true })`
(`IsoScene.ts` lines 55–58) on a `PF.Grid` built from the obstacle
matrix, but the `pathfinding` npm library itself is not part of the
repository sources.  Following spec §4.3 we model an 8-directional A*
over a walkability mask with corner cutting disabled, an octile-distance
heuristic (the scaled integer weights 10/14 stand for 1/√2), insertion
order tie-breaking, and an empty result when no path exists or the start
equals the goal. -/

/-- A grid cell, `(x, y)`. -/
abbrev Cell := ℤ × ℤ

/-- The walkability mask: `matrix[y][x] = 0` means walkable, as built in
`IsoScene.handleClick` (`row[isoX] = 1` marks blocked). -/
structure PFGrid where
  matrix : List (List ℕ)

namespace PFGrid

/-- Number of rows. -/
def height (g : PFGrid) : ℕ := g.matrix.length

/-- Number of columns (of the first row; the scene builds square
matrices). -/
def width (g : PFGrid) : ℕ := (g.matrix.headD []).length

/-- Predicate `grid.isWalkableAt(x, y)`: inside the grid and not blocked.  Reading
outside a row yields the default `1` (blocked), matching the library's
"outside is unwalkable". -/
def isWalkableAt (g : PFGrid) (c : Cell) : Bool :=
  decide (0 ≤ c.1) && decide (c.1 < (g.width : ℤ)) &&
  decide (0 ≤ c.2) && decide (c.2 < (g.height : ℤ)) &&
  decide ((g.matrix.getD c.2.toNat []).getD c.1.toNat 1 = 0)

/-- Method `grid.getNeighbors(node)` with `dontCrossCorners`: the four orthogonal
neighbors when walkable, and a diagonal neighbor when it is walkable and
both flanking orthogonal neighbors are walkable. -/
def neighbors (g : PFGrid) (c : Cell) : List Cell :=
  let x := c.1
  let y := c.2
  let s0 := g.isWalkableAt (x, y - 1)
  let s1 := g.isWalkableAt (x + 1, y)
  let s2 := g.isWalkableAt (x, y + 1)
  let s3 := g.isWalkableAt (x - 1, y)
  let d0 := s3 && s0
  let d1 := s0 && s1
  let d2 := s1 && s2
  let d3 := s2 && s3
  (if s0 then [(x, y - 1)] else []) ++
  (if s1 then [(x + 1, y)] else []) ++
  (if s2 then [(x, y + 1)] else []) ++
  (if s3 then [(x - 1, y)] else []) ++
  (if d0 && g.isWalkableAt (x - 1, y - 1) then [(x - 1, y - 1)] else []) ++
  (if d1 && g.isWalkableAt (x + 1, y - 1) then [(x + 1, y - 1)] else []) ++
  (if d2 && g.isWalkableAt (x + 1, y + 1) then [(x + 1, y + 1)] else []) ++
  (if d3 && g.isWalkableAt (x - 1, y + 1) then [(x - 1, y + 1)] else [])

end PFGrid

/-- A search node: its cell, its accumulated cost `g` (scaled by 10), and
the reversed path from the start to the cell (head is the cell itself). -/
structure AStarNode where
  cell : Cell
  g : ℕ
  revPath : List Cell
deriving DecidableEq

/-- Octile-distance heuristic, scaled by 10 (`14/10` approximates `√2`). -/
def octile (a b : Cell) : ℕ :=
  let dx := (a.1 - b.1).natAbs
  let dy := (a.2 - b.2).natAbs
  10 * max dx dy + 4 * min dx dy

/-- Cost of one step: 14 for a diagonal move, 10 for an orthogonal one. -/
def stepCost (a b : Cell) : ℕ := if a.1 ≠ b.1 ∧ a.2 ≠ b.2 then 14 else 10

/-- Value `f = g + h` of a node. -/
def fval (goal : Cell) (n : AStarNode) : ℕ := n.g + octile n.cell goal

/-- The open-list node with the least `f`; on ties the earliest-inserted
node wins (strict comparison keeps the accumulator). -/
def pickMin (goal : Cell) (h : AStarNode) (t : List AStarNode) : AStarNode :=
  t.foldl (fun best nd => if fval goal nd < fval goal best then nd else best) h

/-- Relax one neighbor `nb` of the popped node `pick` against the open
list: push it when absent, or update its cost and parent when the new
route is cheaper. -/
def relaxNeighbor (pick : AStarNode) (opn : List AStarNode) (nb : Cell) :
    List AStarNode :=
  let ng := pick.g + stepCost pick.cell nb
  if opn.any (fun nd => nd.cell = nb) then
    opn.map (fun nd =>
      if nd.cell = nb ∧ ng < nd.g then ⟨nb, ng, nb :: pick.revPath⟩ else nd)
  else
    opn ++ [⟨nb, ng, nb :: pick.revPath⟩]

/-- The A* main loop: pop the best open node, stop at the goal, otherwise
close it and relax its neighbors.  `fuel` bounds the iterations; an
exhausted search yields the empty path. -/
def searchLoop (grid : PFGrid) (goal : Cell) :
    ℕ → List AStarNode → List Cell → List Cell
  | 0, _, _ => []
  | _ + 1, [], _ => []
  | fuel + 1, h :: t, closed =>
    let pick := pickMin goal h t
    if pick.cell = goal then pick.revPath.reverse
    else
      searchLoop grid goal fuel
        (((grid.neighbors pick.cell).filter
            (fun nb => !(pick.cell :: closed).contains nb)).foldl
          (relaxNeighbor pick) ((h :: t).erase pick))
        (pick.cell :: closed)

/-- Function `findPath(mask, start, goal)`: empty when the start equals the goal or
either endpoint is unwalkable, otherwise the A* search from the start. -/
def findPath (grid : PFGrid) (start goal : Cell) : List Cell :=
  if start = goal then []
  else if ¬(grid.isWalkableAt start = true ∧ grid.isWalkableAt goal = true) then []
  else searchLoop grid goal (grid.width * grid.height + 1)
    [⟨start, 0, [start]⟩] []

/-- Two cells are 8-directionally adjacent and, when the step between
them is diagonal, both flanking orthogonal cells are walkable (the
planner's no-corner-cutting discipline). -/
def AdjStep (g : PFGrid) (a b : Cell) : Prop :=
  max (a.1 - b.1).natAbs (a.2 - b.2).natAbs = 1 ∧
  (a.1 ≠ b.1 ∧ a.2 ≠ b.2 →
    g.isWalkableAt (b.1, a.2) = true ∧ g.isWalkableAt (a.1, b.2) = true)

/-- A node invariant: the reversed path starts (as a list) at the node's
cell, ends at the search's start cell, visits only walkable cells, and
each consecutive pair is a legal step. -/
def NodeOK (g : PFGrid) (start : Cell) (n : AStarNode) : Prop :=
  n.revPath.head? = some n.cell ∧
  n.revPath.getLast? = some start ∧
  (∀ c ∈ n.revPath, g.isWalkableAt c = true) ∧
  List.Chain' (AdjStep g) n.revPath

/-- An explicit walkable 8-connected chain from `start` to `goal`; its
existence is what "the goal is reachable" means. -/
def ValidChain (g : PFGrid) (start goal : Cell) (p : List Cell) : Prop :=
  p.head? = some start ∧ p.getLast? = some goal ∧
  (∀ c ∈ p, g.isWalkableAt c = true) ∧
  List.Chain' (fun a b : Cell =>
    max (a.1 - b.1).natAbs (a.2 - b.2).natAbs = 1) p

/-! ## Definitions: click resolver (cube-clicked branch of
`IsoScene.handleClick`) -/

namespace IsoScene

/-- The 4 adjacent positions around a cell, in source order East, West,
South, North (`IsoScene.ts` lines 534–539). -/
def adjacentPositions (c : Cell) : List Cell :=
  [(c.1 + 1, c.2), (c.1 - 1, c.2), (c.1, c.2 + 1), (c.1, c.2 - 1)]

/-- Valid adjacent tiles: within bounds and not obstacles
(`IsoScene.ts` lines 541–548). -/
def validAdjacentTiles (obstacles : List Cell) (extendedGridSize : ℤ)
    (c : Cell) : List Cell :=
  (adjacentPositions c).filter fun pos =>
    decide ((0 ≤ pos.1 ∧ pos.1 < extendedGridSize ∧
      0 ≤ pos.2 ∧ pos.2 < extendedGridSize) ∧ pos ∉ obstacles)

/-- Euclidean distance from the start cell used by the closest-adjacent
scan: `Math.sqrt(dx*dx + dy*dy)` (`IsoScene.ts` lines 558–567). -/
noncomputable def euclid (start tile : Cell) : ℝ :=
  Real.sqrt (((tile.1 - start.1 : ℤ) : ℝ) * ((tile.1 - start.1 : ℤ) : ℝ) +
    ((tile.2 - start.2 : ℤ) : ℝ) * ((tile.2 - start.2 : ℤ) : ℝ))

/-- The closest valid adjacent tile: fold of the `if (distance <
minDistance)` scan.  The source seeds `closestTile` with the first valid
tile and `minDistance` with `Infinity` and scans the whole list, so its
first iteration always installs the first tile's distance; seeding with
the first tile and its own distance and scanning the whole list computes
the same tile (the first comparison `d0 < d0` fails). -/
noncomputable def closestTileTo (start : Cell) (h0 : Cell)
    (tiles : List Cell) : Cell :=
  (tiles.foldl
    (fun acc tile =>
      if euclid start tile < acc.2 then (tile, euclid start tile) else acc)
    (h0, euclid start h0)).1

/-- Cube-clicked branch of `IsoScene.handleClick` (lines 520–575 and
612–616): for a click on the obstacle cell `clicked`, the character's
path goal becomes the valid adjacent tile closest to the character's
start cell and the facing target passed to `moveAlongPath` is the
obstacle's own cell; with no valid adjacent tile the handler returns
without starting any movement (`none`). -/
noncomputable def resolveCubeClick (obstacles : List Cell)
    (extendedGridSize : ℤ) (startGrid clicked : Cell) :
    Option (Cell × Cell) :=
  match validAdjacentTiles obstacles extendedGridSize clicked with
  | [] => none
  | h0 :: rest => some (closestTileTo startGrid h0 (h0 :: rest), clicked)

end IsoScene

/-! ## Definitions: the `Character3D` motion/rotation controller

Embeds the final iteration of `Character3D`
(`src/unnamed/part_001`).  Positions and angles are real numbers;
`Math.atan2` is modelled as the complex argument (same range `(-π, π]`
and `atan2(0, 0) = 0`, as in JS), and the `while` normalization loops by
their closed forms. -/

namespace Character3D

open scoped Classical

/-- Mutable state of a `Character3D`: continuous position, current
movement target, moving flag, speed, path and path index, optional final
facing target, and the rotation pair. -/
structure State where
  currentX : ℝ
  currentY : ℝ
  targetX : ℝ
  targetY : ℝ
  isMoving : Bool
  moveSpeed : ℝ
  path : List (ℝ × ℝ)
  currentPathIndex : ℕ
  finalTargetPosition : Option (ℝ × ℝ)
  currentRotationY : ℝ
  targetRotationY : ℝ

/-- Field initializers of `Character3D` (lines 12–26): origin position,
not moving, constant speed 6000 px/s, empty path, both rotations 0. -/
def initial : State :=
  { currentX := 0, currentY := 0, targetX := 0, targetY := 0,
    isMoving := false, moveSpeed := 6000, path := [],
    currentPathIndex := 0, finalTargetPosition := none,
    currentRotationY := 0, targetRotationY := 0 }

/-- Constant `rotationSpeed = 0.15`: interpolation rate while
path-following. -/
noncomputable def rotationSpeed : ℝ := 0.15

/-- Constant `mouseRotationSpeed = 0.4`: interpolation rate while idle
(pointer tracking). -/
noncomputable def mouseRotationSpeed : ℝ := 0.4

/-- Closed form of the two normalization loops
`while (angle > π) angle -= 2π; while (angle < -π) angle += 2π`:
remove as many turns as the first loop iterates (`⌈(a-π)/(2π)⌉` of them)
or add as many as the second does, landing in `[-π, π]`. -/
noncomputable def normalizeAngle (a : ℝ) : ℝ :=
  if a > Real.pi then
    a - 2 * Real.pi * (⌈(a - Real.pi) / (2 * Real.pi)⌉ : ℤ)
  else if a < -Real.pi then
    a + 2 * Real.pi * (⌈(-Real.pi - a) / (2 * Real.pi)⌉ : ℤ)
  else a

/-- Closed form of the loops
`while (n < 0) n += 2π; while (n >= 2π) n -= 2π` in
`snapToMainDirection`: the representative of `a` modulo `2π` in
`[0, 2π)`. -/
noncomputable def normalize0TwoPi (a : ℝ) : ℝ :=
  a - 2 * Real.pi * (⌊a / (2 * Real.pi)⌋ : ℤ)

/-- Function `Math.atan2(y, x)`, modelled as the argument of the complex
number `x + y·i`. -/
noncomputable def atan2 (y x : ℝ) : ℝ := Complex.arg ⟨x, y⟩

/-- Method `calculateIsoRotation(dx, dy)` (lines 289–334): guard against
near-zero vectors (return the current target rotation unchanged),
otherwise the screen-space angle plus the empirically tuned isometric
offsets, flipped and shifted by `π`, normalized into `[-π, π]`.  `tgt`
is the object's `targetRotationY` read by the early return. -/
noncomputable def calculateIsoRotation (dx dy tgt : ℝ) : ℝ :=
  let length := Real.sqrt (dx * dx + dy * dy)
  if length < 0.1 then tgt
  else
    let angle := atan2 dy dx
    let isometricAngle := Real.arctan 0.5
    let angle :=
      if (dx < 0 ∧ dy < 0) ∨ (dx > 0 ∧ dy > 0) then
        angle + isometricAngle + Real.pi / 6 + Real.pi / 36
      else angle + isometricAngle
    normalizeAngle (-angle + Real.pi)

/-- The four main isometric directions `[0, π/2, π, 3π/2]` (line 343). -/
noncomputable def mainDirections : List ℝ :=
  [0, Real.pi / 2, Real.pi, 3 * Real.pi / 2]

/-- Wraparound-aware distance of the normalized target angle from a
candidate direction: `min(diff1, diff2, diff3)` (lines 355–359). -/
noncomputable def wrapDiff (normalizedTarget direction : ℝ) : ℝ :=
  min |normalizedTarget - direction|
    (min |normalizedTarget - (direction + 2 * Real.pi)|
      |normalizedTarget - (direction - 2 * Real.pi)|)

/-- Method `snapToMainDirection` (lines 341–370): the main direction
whose wraparound-aware distance from the (normalized) target rotation is
smallest; seeded with `mainDirections[0] = 0` at the raw distance
`|t - 0|`, strict improvement, so ties go to the earlier direction. -/
noncomputable def snapToMainDirection (t : ℝ) : ℝ :=
  let normalizedTarget := normalize0TwoPi t
  (mainDirections.foldl
    (fun acc d =>
      if wrapDiff normalizedTarget d < acc.2 then (d, wrapDiff normalizedTarget d)
      else acc)
    (0, |t - 0|)).1

/-- Method `updateRotation` (lines 574–596): shortest-arc difference,
snap below `0.01`, exponential chase otherwise, rate depending on the
moving flag, then normalization of the current angle into `[-π, π]`. -/
noncomputable def updateRotation (s : State) : ℝ :=
  let diff := normalizeAngle (s.targetRotationY - s.currentRotationY)
  let speed := if s.isMoving then rotationSpeed else mouseRotationSpeed
  if |diff| < 0.01 then normalizeAngle s.targetRotationY
  else normalizeAngle (s.currentRotationY + diff * speed)

/-- Remaining distance from the current position to the current movement
target (`update` lines 457–459). -/
noncomputable def distTo (s : State) : ℝ :=
  Real.sqrt ((s.targetX - s.currentX) * (s.targetX - s.currentX) +
    (s.targetY - s.currentY) * (s.targetY - s.currentY))

/-- Rotation target while moving (lines 461–486): toward the overall
final target when one exists and the current leg is axis-aligned (with
its own distance guard), else toward the movement direction. -/
noncomputable def movingTargetRotation (s : State) (dx dy : ℝ) : ℝ :=
  match s.finalTargetPosition with
  | some ft =>
    if ¬(|dx| > 0.1 ∧ |dy| > 0.1) then
      let finalDx := ft.1 - s.currentX
      let finalDy := ft.2 - s.currentY
      let finalDistance := Real.sqrt (finalDx * finalDx + finalDy * finalDy)
      if finalDistance > 0.1 then
        calculateIsoRotation finalDx finalDy s.targetRotationY
      else s.targetRotationY
    else calculateIsoRotation dx dy s.targetRotationY
  | none => calculateIsoRotation dx dy s.targetRotationY

/-- Target rotation of the arrival sequence (lines 498–515), evaluated
on the state whose position has already snapped onto the final
waypoint: toward the final facing target when it is beyond the
componentwise guard, else the current target rotation. -/
noncomputable def arrivalTargetRotation (s : State) : ℝ :=
  match s.finalTargetPosition with
  | some ft =>
    let dx := ft.1 - s.currentX
    let dy := ft.2 - s.currentY
    if |dx| > 0.1 ∨ |dy| > 0.1 then
      calculateIsoRotation dx dy s.targetRotationY
    else s.targetRotationY
  | none => s.targetRotationY

/-- Method `update(deltaTime)` (lines 449–533): interpolate the facing
angle, then, when moving: recompute the target angle (beyond the
rotation guard), snap onto the waypoint when the remaining distance is
below the arrival epsilon `0.1` — advancing the path index or, on the
last waypoint, running the arrival sequence (face the final target,
snap to a main direction, clear the path) and reporting `false` — or
otherwise move `min(moveSpeed·deltaTime, distance)` straight toward the
waypoint and report `true`. -/
noncomputable def update (dt : ℝ) (s0 : State) : State × Bool :=
  let s := { s0 with currentRotationY := updateRotation s0 }
  if s.isMoving = false then (s, false)
  else
    let dx := s.targetX - s.currentX
    let dy := s.targetY - s.currentY
    let distance := Real.sqrt (dx * dx + dy * dy)
    let s := if distance > 0.1 then
        { s with targetRotationY := movingTargetRotation s dx dy }
      else s
    if distance < 0.1 then
      let s := { s with currentX := s.targetX, currentY := s.targetY }
      if 0 < s.path.length ∧ s.currentPathIndex < s.path.length - 1 then
        let i := s.currentPathIndex + 1
        ({ s with currentPathIndex := i,
                  targetX := ((s.path.get? i).getD (0, 0)).1,
                  targetY := ((s.path.get? i).getD (0, 0)).2 }, true)
      else
        let d := snapToMainDirection (arrivalTargetRotation s)
        ({ s with targetRotationY := d, currentRotationY := d,
                  isMoving := false, path := [], currentPathIndex := 0,
                  finalTargetPosition := none }, false)
    else
      let moveDistance := min (s.moveSpeed * dt) distance
      ({ s with currentX := s.currentX + dx / distance * moveDistance,
                currentY := s.currentY + dy / distance * moveDistance }, true)

/-- Method `moveAlongPath(path, undefined, finalTarget)` as invoked by
`IsoScene.handleClick` (screen-coordinate waypoints, optional facing
target, lines 397–442): replace the path, reset the index, enter Moving,
target the first waypoint; an empty path is a no-op. -/
def moveAlongPath (path : List (ℝ × ℝ)) (finalTarget : Option (ℝ × ℝ))
    (s : State) : State :=
  match path with
  | [] => s
  | p :: rest =>
    { s with finalTargetPosition := finalTarget, path := p :: rest,
             currentPathIndex := 0, isMoving := true,
             targetX := p.1, targetY := p.2 }

/-- Method `rotateTowardsPosition(targetX, targetY)` (lines 540–568):
a no-op while moving; otherwise sets the target rotation toward the
pointer when it lies beyond the guard distance. -/
noncomputable def rotateTowardsPosition (targetX targetY : ℝ) (s : State) :
    State :=
  if s.isMoving then s
  else
    let dx := targetX - s.currentX
    let dy := targetY - s.currentY
    let length := Real.sqrt (dx * dx + dy * dy)
    if length > 0.1 then
      let angle := atan2 dy dx + Real.pi / 4
      { s with targetRotationY := normalizeAngle (-angle + Real.pi) }
    else s

/-- Iterated ticks: `simulate dt n s` runs `n` calls of `update dt`,
keeping the state. -/
noncomputable def simulate (dt : ℝ) : ℕ → State → State
  | 0, s => s
  | n + 1, s => simulate dt n (update dt s).1

/-- Tick budget of a waypoint list from a starting point: per leg,
`⌈legLength / (speed·dt)⌉` movement ticks plus one snap tick at the
waypoint. -/
noncomputable def pathTicks (sdt : ℝ) : (ℝ × ℝ) → List (ℝ × ℝ) → ℕ
  | _, [] => 0
  | p, w :: rest =>
    (⌈Real.sqrt ((w.1 - p.1) * (w.1 - p.1) + (w.2 - p.2) * (w.2 - p.2)) /
        sdt⌉₊ + 1) + pathTicks sdt w rest

/-- Relation between a moving state `s` and the state `s'` right after
its snap tick onto the current waypoint: position on the waypoint, speed
kept, and either the index advanced onto the next waypoint (when one is
left) or the Moving state left (on the last waypoint). -/
def PostLeg (s s' : State) : Prop :=
  s'.currentX = s.targetX ∧ s'.currentY = s.targetY ∧
  s'.moveSpeed = s.moveSpeed ∧
  ((0 < s.path.length ∧ s.currentPathIndex < s.path.length - 1) →
    (s'.isMoving = true ∧ s'.path = s.path ∧
     s'.currentPathIndex = s.currentPathIndex + 1 ∧
     s'.targetX = ((s.path.get? (s.currentPathIndex + 1)).getD (0, 0)).1 ∧
     s'.targetY = ((s.path.get? (s.currentPathIndex + 1)).getD (0, 0)).2 ∧
     s'.finalTargetPosition = s.finalTargetPosition)) ∧
  (¬(0 < s.path.length ∧ s.currentPathIndex < s.path.length - 1) →
    s'.isMoving = false)

end Character3D

/-! ## Lemmas and claim theorems -/

/-- Invariant of the strictly-improving minimum fold shared by the
closest-adjacent-tile scan and the facing-snap scan: the result is drawn
from the seed or the list, its recorded score is its own score, and its
score is minimal among the seed's and every scanned element's. -/
theorem foldlMin_spec {α : Type} (g : α → ℝ) :
    ∀ (l : List α) (b : α) (db : ℝ), db = g b →
      ((l.foldl (fun acc d => if g d < acc.2 then (d, g d) else acc)
          (b, db)).1 = b ∨
        (l.foldl (fun acc d => if g d < acc.2 then (d, g d) else acc)
          (b, db)).1 ∈ l) ∧
      (l.foldl (fun acc d => if g d < acc.2 then (d, g d) else acc)
          (b, db)).2 =
        g (l.foldl (fun acc d => if g d < acc.2 then (d, g d) else acc)
          (b, db)).1 ∧
      (l.foldl (fun acc d => if g d < acc.2 then (d, g d) else acc)
          (b, db)).2 ≤ db ∧
      ∀ d ∈ l,
        (l.foldl (fun acc d => if g d < acc.2 then (d, g d) else acc)
          (b, db)).2 ≤ g d := by
  intro l
  induction l with
  | nil =>
    intro b db hdb
    exact ⟨Or.inl rfl, hdb, le_rfl, by simp⟩
  | cons a l ih =>
    intro b db hdb
    simp only [List.foldl_cons]
    by_cases hlt : g a < db
    · rw [if_pos hlt]
      obtain ⟨hmem, heq, hle, hmin⟩ := ih a (g a) rfl
      refine ⟨?_, heq, hle.trans hlt.le, ?_⟩
      · rcases hmem with hmem | hmem
        · refine Or.inr ?_
          rw [hmem]
          exact List.mem_cons_self _ _
        · exact Or.inr (List.mem_cons_of_mem _ hmem)
      · intro d hd
        rcases List.mem_cons.mp hd with rfl | hd
        · exact hle
        · exact hmin d hd
    · rw [if_neg hlt]
      obtain ⟨hmem, heq, hle, hmin⟩ := ih b db hdb
      refine ⟨?_, heq, hle, ?_⟩
      · rcases hmem with hmem | hmem
        · exact Or.inl hmem
        · exact Or.inr (List.mem_cons_of_mem _ hmem)
      · intro d hd
        rcases List.mem_cons.mp hd with rfl | hd
        · exact hle.trans (not_lt.mp hlt)
        · exact hmin d hd

/-- C2: converting an integer grid cell to projected (screen) coordinates
and back with the inverse transform recovers the cell exactly, hence
within `1e-6`, for every nonzero tile size. -/
theorem c2_roundTrip (x y : ℤ) (t : ℚ) (ht : t ≠ 0) :
    IsoUtils.screenToIso (IsoUtils.isoToScreen x y t).1
        (IsoUtils.isoToScreen x y t).2 t = ((x : ℚ), (y : ℚ)) ∧
    |(IsoUtils.screenToIso (IsoUtils.isoToScreen x y t).1
        (IsoUtils.isoToScreen x y t).2 t).1 - (x : ℚ)| ≤ 1 / 1000000 ∧
    |(IsoUtils.screenToIso (IsoUtils.isoToScreen x y t).1
        (IsoUtils.isoToScreen x y t).2 t).2 - (y : ℚ)| ≤ 1 / 1000000 := by
  have hx : (IsoUtils.screenToIso (IsoUtils.isoToScreen x y t).1
      (IsoUtils.isoToScreen x y t).2 t).1 = (x : ℚ) := by
    simp only [IsoUtils.isoToScreen, IsoUtils.screenToIso]
    field_simp
  have hy : (IsoUtils.screenToIso (IsoUtils.isoToScreen x y t).1
      (IsoUtils.isoToScreen x y t).2 t).2 = (y : ℚ) := by
    simp only [IsoUtils.isoToScreen, IsoUtils.screenToIso]
    field_simp
  refine ⟨Prod.ext hx hy, ?_, ?_⟩
  · rw [hx]; simp
  · rw [hy]; simp

/-- Witness for C2 at cell `(3, 5)` with tile size `8`. -/
theorem c2_roundTrip_witness :
    (8 : ℚ) ≠ 0 ∧
    IsoUtils.screenToIso (IsoUtils.isoToScreen 3 5 8).1
        (IsoUtils.isoToScreen 3 5 8).2 8 = ((3 : ℚ), (5 : ℚ)) :=
  ⟨by norm_num, (c2_roundTrip 3 5 8 (by norm_num)).1⟩

namespace IsoScene

/-- Every obstacle the loop ever returns is outside the exclusion zone,
provided every obstacle it starts from is. -/
theorem obstacleLoop_exclusion (size cX cY r count maxA : ℕ) (rand : ℕ → ℕ × ℕ) :
    ∀ (fuel attempts placed : ℕ) (obstacles : List (ℕ × ℕ)),
      (∀ c ∈ obstacles,
        ¬(((c.1 : ℤ) - cX).natAbs ≤ r ∧ ((c.2 : ℤ) - cY).natAbs ≤ r)) →
      ∀ c ∈ (obstacleLoop size cX cY r count maxA rand fuel attempts placed
          obstacles).1,
        ¬(((c.1 : ℤ) - cX).natAbs ≤ r ∧ ((c.2 : ℤ) - cY).natAbs ≤ r) := by
  intro fuel
  induction fuel with
  | zero => intro attempts placed obstacles h; simpa [obstacleLoop] using h
  | succ n ih =>
    intro attempts placed obstacles h
    rw [obstacleLoop]
    dsimp only
    split
    · split
      · exact ih _ _ _ h
      · split
        · exact ih _ _ _ h
        · rename_i hfar
          refine ih _ _ _ ?_
          intro c hc
          rcases List.mem_cons.mp hc with hc | hc
          · subst hc; exact hfar
          · exact h c hc
    · exact h

/-- The loop's result size and attempt count are bounded: starting from
`placed = obstacles.length` obstacles and a given attempt counter, the
final obstacle list has at most `count` cells and the final attempt
counter is at most `max attempts maxA`. -/
theorem obstacleLoop_bounds (size cX cY r count maxA : ℕ) (rand : ℕ → ℕ × ℕ) :
    ∀ (fuel attempts placed : ℕ) (obstacles : List (ℕ × ℕ)),
      placed = obstacles.length → placed ≤ count →
      (obstacleLoop size cX cY r count maxA rand fuel attempts placed
          obstacles).1.length ≤ count ∧
      (obstacleLoop size cX cY r count maxA rand fuel attempts placed
          obstacles).2 ≤ max attempts maxA := by
  intro fuel
  induction fuel with
  | zero =>
    intro attempts placed obstacles hlen hle
    constructor
    · simpa [obstacleLoop, ← hlen] using hle
    · simp [obstacleLoop]
  | succ n ih =>
    intro attempts placed obstacles hlen hle
    rw [obstacleLoop]
    dsimp only
    split
    · rename_i hcond
      split
      · rcases ih (attempts + 1) placed obstacles hlen hle with ⟨h1, h2⟩
        refine ⟨h1, h2.trans ?_⟩
        exact max_le_max (Nat.succ_le_of_lt hcond.2) le_rfl |>.trans (by simp)
      · split
        · rcases ih (attempts + 1) placed obstacles hlen hle with ⟨h1, h2⟩
          refine ⟨h1, h2.trans ?_⟩
          exact max_le_max (Nat.succ_le_of_lt hcond.2) le_rfl |>.trans (by simp)
        · rcases ih (attempts + 1) (placed + 1) (_ :: obstacles)
              (by simp [hlen]) (Nat.succ_le_of_lt hcond.1) with ⟨h1, h2⟩
          refine ⟨h1, h2.trans ?_⟩
          exact max_le_max (Nat.succ_le_of_lt hcond.2) le_rfl |>.trans (by simp)
    · constructor
      · simpa [← hlen] using hle
      · simp

end IsoScene

/-- C3: for every generated obstacle field (i.e. for every stream of
random draws and every grid size), no obstacle cell lies within Chebyshev
distance `1` (the `avoidRadius`) of the spawn cell at the grid center;
equivalently, every cell within that radius of spawn stays unblocked. -/
theorem c3_spawnExclusion (extendedGridSize : ℕ) (rand : ℕ → ℕ × ℕ)
    (c : ℕ × ℕ)
    (hc : c ∈ (IsoScene.createRandomObstaclePositions extendedGridSize rand).1) :
    ¬(((c.1 : ℤ) - IsoScene.centerOf extendedGridSize).natAbs ≤ 1 ∧
      ((c.2 : ℤ) - IsoScene.centerOf extendedGridSize).natAbs ≤ 1) := by
  have h := IsoScene.obstacleLoop_exclusion extendedGridSize
    (IsoScene.centerOf extendedGridSize) (IsoScene.centerOf extendedGridSize) 1
    (IsoScene.obstacleCountOf extendedGridSize)
    (IsoScene.obstacleCountOf extendedGridSize * 10) rand
    (IsoScene.obstacleCountOf extendedGridSize * 10) 0 0 []
    (by intro c hc; simp at hc)
  exact h c hc

/-- Witness for C3: grid size `8` with a stream that always draws `(0,0)`
actually places the obstacle `(0,0)`, and `(0,0)` is outside the
exclusion zone around the spawn cell `(4,4)`. -/
theorem c3_spawnExclusion_witness :
    ((0, 0) ∈ (IsoScene.createRandomObstaclePositions 8 (fun _ => (0, 0))).1) ∧
    ¬((((0 : ℕ) : ℤ) - IsoScene.centerOf 8).natAbs ≤ 1 ∧
      (((0 : ℕ) : ℤ) - IsoScene.centerOf 8).natAbs ≤ 1) :=
  ⟨by decide, c3_spawnExclusion 8 (fun _ => (0, 0)) (0, 0) (by decide)⟩

/-- C9: obstacle generation terminates with bounded work for every grid
size and random stream: it uses at most `10 * obstacleCount` attempts and
places at most `obstacleCount = ⌊0.075 * gridSize²⌋` obstacles; exhausting
the budget simply yields a (possibly shorter) obstacle list, there is no
error outcome in the return type. -/
theorem c9_generationBudget (extendedGridSize : ℕ) (rand : ℕ → ℕ × ℕ) :
    (IsoScene.createRandomObstaclePositions extendedGridSize rand).1.length ≤
      IsoScene.obstacleCountOf extendedGridSize ∧
    (IsoScene.createRandomObstaclePositions extendedGridSize rand).2 ≤
      10 * IsoScene.obstacleCountOf extendedGridSize := by
  have h := IsoScene.obstacleLoop_bounds extendedGridSize
    (IsoScene.centerOf extendedGridSize) (IsoScene.centerOf extendedGridSize) 1
    (IsoScene.obstacleCountOf extendedGridSize)
    (IsoScene.obstacleCountOf extendedGridSize * 10) rand
    (IsoScene.obstacleCountOf extendedGridSize * 10) 0 0 []
    (by simp) (by simp)
  refine ⟨h.1, h.2.trans ?_⟩
  simp [Nat.mul_comm]

/-- Legal steps are symmetric: the two flanking cells of a diagonal step
are the same pair of cells in either direction. -/
theorem AdjStep_symm {g : PFGrid} {a b : Cell} (h : AdjStep g a b) :
    AdjStep g b a := by
  obtain ⟨hmax, hflank⟩ := h
  constructor
  · have e1 : (b.1 - a.1).natAbs = (a.1 - b.1).natAbs := by omega
    have e2 : (b.2 - a.2).natAbs = (a.2 - b.2).natAbs := by omega
    rw [e1, e2]; exact hmax
  · intro hne
    obtain ⟨w1, w2⟩ := hflank ⟨Ne.symm hne.1, Ne.symm hne.2⟩
    exact ⟨w2, w1⟩

/-- Every generated neighbor is walkable and a legal step away from its
origin cell. -/
theorem mem_neighbors {g : PFGrid} {c nb : Cell} (h : nb ∈ g.neighbors c) :
    g.isWalkableAt nb = true ∧ AdjStep g c nb := by
  obtain ⟨x, y⟩ := c
  simp only [PFGrid.neighbors, List.mem_append, List.mem_ite_nil_right,
    List.mem_singleton, Bool.and_eq_true] at h
  rcases h with ((((((h | h) | h) | h) | h) | h) | h) | h
  · obtain ⟨hw, rfl⟩ := h
    refine ⟨hw, by omega, fun hne => absurd rfl hne.1⟩
  · obtain ⟨hw, rfl⟩ := h
    refine ⟨hw, by omega, fun hne => absurd rfl hne.2⟩
  · obtain ⟨hw, rfl⟩ := h
    refine ⟨hw, by omega, fun hne => absurd rfl hne.1⟩
  · obtain ⟨hw, rfl⟩ := h
    refine ⟨hw, by omega, fun hne => absurd rfl hne.2⟩
  · obtain ⟨⟨⟨h3, h0⟩, hw⟩, rfl⟩ := h
    exact ⟨hw, by omega, fun _ => ⟨h3, h0⟩⟩
  · obtain ⟨⟨⟨h0, h1⟩, hw⟩, rfl⟩ := h
    exact ⟨hw, by omega, fun _ => ⟨h1, h0⟩⟩
  · obtain ⟨⟨⟨h1, h2⟩, hw⟩, rfl⟩ := h
    exact ⟨hw, by omega, fun _ => ⟨h1, h2⟩⟩
  · obtain ⟨⟨⟨h2, h3⟩, hw⟩, rfl⟩ := h
    exact ⟨hw, by omega, fun _ => ⟨h3, h2⟩⟩

/-- The selected open node is one of the open nodes. -/
theorem pickMin_mem (goal : Cell) (h : AStarNode) (t : List AStarNode) :
    pickMin goal h t ∈ h :: t := by
  unfold pickMin
  induction t generalizing h with
  | nil => simp
  | cons a l ih =>
    simp only [List.foldl_cons]
    rcases List.mem_cons.mp (ih (if fval goal a < fval goal h then a else h))
      with h1 | h1
    · rw [h1]
      split
      · exact List.mem_cons_of_mem _ (List.mem_cons_self _ _)
      · exact List.mem_cons_self _ _
    · exact List.mem_cons_of_mem _ (List.mem_cons_of_mem _ h1)

/-- Pushing a fresh node built from a sound parent and one of its
neighbors keeps the node invariant. -/
theorem relax_newNode_OK {g : PFGrid} {start : Cell} {pick : AStarNode}
    (hp : NodeOK g start pick) {nb : Cell} (hnb : nb ∈ g.neighbors pick.cell)
    (ng : ℕ) : NodeOK g start ⟨nb, ng, nb :: pick.revPath⟩ := by
  obtain ⟨hh, hl, hw, hc⟩ := hp
  obtain ⟨hwn, hadj⟩ := mem_neighbors hnb
  refine ⟨rfl, ?_, ?_, ?_⟩
  · show (nb :: pick.revPath).getLast? = some start
    cases hrev : pick.revPath with
    | nil => rw [hrev] at hh; simp at hh
    | cons a l =>
      rw [List.getLast?_cons_cons]
      rw [hrev] at hl
      exact hl
  · intro d hd
    rcases List.mem_cons.mp hd with rfl | hmem
    · exact hwn
    · exact hw d hmem
  · rw [List.chain'_cons']
    refine ⟨?_, hc⟩
    intro b hb
    have hb' : b = pick.cell := by rw [hh] at hb; exact (by simpa using hb : pick.cell = b).symm
    subst hb'
    exact AdjStep_symm hadj

/-- Relaxing one neighbor preserves the open-list invariant. -/
theorem relax_OK {g : PFGrid} {start : Cell} {pick : AStarNode}
    (hp : NodeOK g start pick) {opn : List AStarNode} {nb : Cell}
    (hnb : nb ∈ g.neighbors pick.cell)
    (hOK : ∀ n ∈ opn, NodeOK g start n) :
    ∀ n ∈ relaxNeighbor pick opn nb, NodeOK g start n := by
  intro n hn
  unfold relaxNeighbor at hn
  dsimp only at hn
  split at hn
  · obtain ⟨m, hm, rfl⟩ := List.mem_map.mp hn
    split
    · exact relax_newNode_OK hp hnb _
    · exact hOK m hm
  · rcases List.mem_append.mp hn with hmem | hmem
    · exact hOK n hmem
    · rw [List.mem_singleton.mp hmem]
      exact relax_newNode_OK hp hnb _

/-- Folding the neighbor relaxation over any neighbor sublist preserves
the open-list invariant. -/
theorem relaxFold_OK {g : PFGrid} {start : Cell} {pick : AStarNode}
    (hp : NodeOK g start pick) :
    ∀ (nbs : List Cell) (opn : List AStarNode),
      (∀ nb ∈ nbs, nb ∈ g.neighbors pick.cell) →
      (∀ n ∈ opn, NodeOK g start n) →
      ∀ n ∈ nbs.foldl (relaxNeighbor pick) opn, NodeOK g start n := by
  intro nbs
  induction nbs with
  | nil => intro opn _ hOK; simpa using hOK
  | cons a l ih =>
    intro opn hnb hOK
    simp only [List.foldl_cons]
    exact ih _ (fun nb h => hnb nb (List.mem_cons_of_mem _ h))
      (relax_OK hp (hnb a (List.mem_cons_self _ _)) hOK)

/-- Soundness of the A* loop: a nonempty result is a walkable chain of
legal steps from the start to the goal. -/
theorem searchLoop_sound (g : PFGrid) (start goal : Cell) :
    ∀ (fuel : ℕ) (openList : List AStarNode) (closed : List Cell),
      (∀ n ∈ openList, NodeOK g start n) →
      searchLoop g goal fuel openList closed ≠ [] →
      (searchLoop g goal fuel openList closed).head? = some start ∧
      (searchLoop g goal fuel openList closed).getLast? = some goal ∧
      (∀ c ∈ searchLoop g goal fuel openList closed,
        g.isWalkableAt c = true) ∧
      List.Chain' (AdjStep g) (searchLoop g goal fuel openList closed) := by
  intro fuel
  induction fuel with
  | zero => intro openList closed _ hne; simp [searchLoop] at hne
  | succ n ih =>
    intro openList closed hOK hne
    cases openList with
    | nil => simp [searchLoop] at hne
    | cons h t =>
      rw [searchLoop] at hne ⊢
      by_cases hgoal : (pickMin goal h t).cell = goal
      · rw [if_pos hgoal] at hne ⊢
        obtain ⟨hh, hl, hw, hc⟩ := hOK _ (pickMin_mem goal h t)
        refine ⟨?_, ?_, ?_, ?_⟩
        · rw [List.head?_reverse]; exact hl
        · rw [List.getLast?_reverse, hh, hgoal]
        · intro c hc'
          rw [List.mem_reverse] at hc'
          exact hw c hc'
        · exact List.chain'_reverse.mpr (hc.imp fun a b hab => AdjStep_symm hab)
      · rw [if_neg hgoal] at hne ⊢
        refine ih _ _ ?_ hne
        exact relaxFold_OK (hOK _ (pickMin_mem goal h t)) _ _
          (fun nb hmem => (List.mem_filter.mp hmem).1)
          (fun nd hmem => hOK _ (List.mem_of_mem_erase hmem))

/-- Soundness of `findPath`: a nonempty result starts at the start cell,
ends at the goal cell, visits only walkable cells and advances by legal
steps. -/
theorem findPath_sound (g : PFGrid) (start goal : Cell)
    (hne : findPath g start goal ≠ []) :
    (findPath g start goal).head? = some start ∧
    (findPath g start goal).getLast? = some goal ∧
    (∀ c ∈ findPath g start goal, g.isWalkableAt c = true) ∧
    List.Chain' (AdjStep g) (findPath g start goal) := by
  by_cases h1 : start = goal
  · simp [findPath, h1] at hne
  · by_cases h2 : g.isWalkableAt start = true ∧ g.isWalkableAt goal = true
    · have heq : findPath g start goal =
          searchLoop g goal (g.width * g.height + 1) [⟨start, 0, [start]⟩] [] := by
        simp [findPath, h1, h2]
      rw [heq] at hne ⊢
      refine searchLoop_sound g start goal _ _ _ ?_ hne
      intro nd hnd
      rw [List.mem_singleton] at hnd
      subst hnd
      refine ⟨rfl, rfl, ?_, List.chain'_singleton _⟩
      intro c hc
      rw [List.mem_singleton] at hc
      subst hc
      exact h2.1
    · simp [findPath, h1, h2] at hne

/-- C1: whenever `findPath` returns a nonempty path, every cell of the
path is walkable (no waypoint is a blocked cell of the mask), every pair
of consecutive cells is 8-directionally adjacent (Chebyshev distance 1),
and no diagonal step has both of its flanking orthogonal cells blocked
(corner cutting disabled). -/
theorem c1_pathValidity (mask : PFGrid) (start goal : Cell)
    (hne : findPath mask start goal ≠ []) :
    (∀ c ∈ findPath mask start goal, mask.isWalkableAt c = true) ∧
    List.Chain'
      (fun a b : Cell =>
        max (a.1 - b.1).natAbs (a.2 - b.2).natAbs = 1 ∧
        (a.1 ≠ b.1 ∧ a.2 ≠ b.2 →
          ¬(mask.isWalkableAt (b.1, a.2) = false ∧
            mask.isWalkableAt (a.1, b.2) = false)))
      (findPath mask start goal) := by
  obtain ⟨_, _, hw, hc⟩ := findPath_sound mask start goal hne
  refine ⟨hw, hc.imp ?_⟩
  rintro a b ⟨hmax, hflank⟩
  refine ⟨hmax, fun hd => ?_⟩
  rintro ⟨f1, f2⟩
  rw [(hflank hd).1] at f1
  simp at f1

/-- Witness for C1: on the all-walkable 2×2 grid the planner actually
finds a nonempty path from `(0,0)` to `(1,1)`, and it is walkable. -/
theorem c1_pathValidity_witness :
    findPath ⟨[[0, 0], [0, 0]]⟩ ((0 : ℤ), (0 : ℤ)) ((1 : ℤ), (1 : ℤ)) ≠ [] ∧
    (∀ c ∈ findPath ⟨[[0, 0], [0, 0]]⟩ ((0 : ℤ), (0 : ℤ)) ((1 : ℤ), (1 : ℤ)),
      PFGrid.isWalkableAt ⟨[[0, 0], [0, 0]]⟩ c = true) :=
  ⟨by decide, (c1_pathValidity _ _ _ (by decide)).1⟩

/-- C4: for a click that resolves to an obstacle cell, when at least one
of the four orthogonally adjacent tiles is in bounds and walkable, the
effective pathing goal is such a tile with minimal Euclidean distance to
the agent's current cell and the final facing target is the obstacle's
own cell; when no orthogonally adjacent tile is walkable, the click is a
no-op. -/
theorem c4_cubeClick (obstacles : List Cell) (size : ℤ)
    (startGrid clicked : Cell) (_hcube : clicked ∈ obstacles) :
    (IsoScene.validAdjacentTiles obstacles size clicked = [] →
      IsoScene.resolveCubeClick obstacles size startGrid clicked = none) ∧
    (IsoScene.validAdjacentTiles obstacles size clicked ≠ [] →
      ∃ goal : Cell,
        IsoScene.resolveCubeClick obstacles size startGrid clicked =
          some (goal, clicked) ∧
        goal ∈ IsoScene.validAdjacentTiles obstacles size clicked ∧
        ∀ tile ∈ IsoScene.validAdjacentTiles obstacles size clicked,
          IsoScene.euclid startGrid goal ≤ IsoScene.euclid startGrid tile) := by
  cases hv : IsoScene.validAdjacentTiles obstacles size clicked with
  | nil =>
    refine ⟨fun _ => ?_, fun hne => absurd rfl hne⟩
    unfold IsoScene.resolveCubeClick
    rw [hv]
  | cons h0 rest =>
    refine ⟨fun h => by simp at h, fun _ => ?_⟩
    obtain ⟨hmem, heq, hle, hmin⟩ :=
      foldlMin_spec (IsoScene.euclid startGrid) (h0 :: rest) h0
        (IsoScene.euclid startGrid h0) rfl
    refine ⟨IsoScene.closestTileTo startGrid h0 (h0 :: rest), ?_, ?_, ?_⟩
    · unfold IsoScene.resolveCubeClick
      rw [hv]
    · unfold IsoScene.closestTileTo
      rcases hmem with hmem | hmem
      · rw [hmem]
        exact List.mem_cons_self _ _
      · exact hmem
    · intro tile ht
      unfold IsoScene.closestTileTo
      rw [← heq]
      exact hmin tile ht

/-- Witness for C4: on a 5×5 grid with the single obstacle `(2,2)`
clicked from `(0,2)`, all four neighbors are walkable and the theorem
produces the closest of them together with the obstacle as facing
target. -/
theorem c4_cubeClick_witness :
    ((2, 2) : Cell) ∈ ([((2, 2) : Cell)]) ∧
    IsoScene.validAdjacentTiles [((2, 2) : Cell)] 5 ((2 : ℤ), (2 : ℤ)) ≠ [] ∧
    (∃ goal : Cell,
      IsoScene.resolveCubeClick [((2, 2) : Cell)] 5 ((0 : ℤ), (2 : ℤ))
          ((2 : ℤ), (2 : ℤ)) = some (goal, ((2 : ℤ), (2 : ℤ))) ∧
      goal ∈ IsoScene.validAdjacentTiles [((2, 2) : Cell)] 5 ((2 : ℤ), (2 : ℤ)) ∧
      ∀ tile ∈ IsoScene.validAdjacentTiles [((2, 2) : Cell)] 5
          ((2 : ℤ), (2 : ℤ)),
        IsoScene.euclid ((0 : ℤ), (2 : ℤ)) goal ≤
          IsoScene.euclid ((0 : ℤ), (2 : ℤ)) tile) :=
  ⟨by decide, by decide,
    (c4_cubeClick [((2, 2) : Cell)] 5 ((0 : ℤ), (2 : ℤ)) ((2 : ℤ), (2 : ℤ))
      (by decide)).2 (by decide)⟩

namespace Character3D

/-- Tick of an idle character: only the facing interpolation runs and the
tick reports `false`; position, path and flags are untouched. -/
theorem update_not_moving (dt : ℝ) (s : State) (h : s.isMoving = false) :
    update dt s = ({ s with currentRotationY := updateRotation s }, false) := by
  simp [update, h]

/-- Tick of a moving character beyond the arrival epsilon: it moves
exactly `min(moveSpeed·dt, distance)` along the straight line toward the
current waypoint, updates the rotation pair, and reports `true`. -/
theorem update_move (dt : ℝ) (s : State) (h1 : s.isMoving = true)
    (h2 : ¬(distTo s < 0.1)) :
    update dt s =
      ({ s with
          currentRotationY := updateRotation s,
          targetRotationY :=
            if distTo s > 0.1 then
              movingTargetRotation { s with currentRotationY := updateRotation s }
                (s.targetX - s.currentX) (s.targetY - s.currentY)
            else s.targetRotationY,
          currentX := s.currentX + (s.targetX - s.currentX) / distTo s *
            min (s.moveSpeed * dt) (distTo s),
          currentY := s.currentY + (s.targetY - s.currentY) / distTo s *
            min (s.moveSpeed * dt) (distTo s) }, true) := by
  have h2' : ¬(Real.sqrt ((s.targetX - s.currentX) * (s.targetX - s.currentX) +
      (s.targetY - s.currentY) * (s.targetY - s.currentY)) < 0.1) := h2
  by_cases hgt : distTo s > 0.1
  · have hgt' : Real.sqrt ((s.targetX - s.currentX) * (s.targetX - s.currentX) +
        (s.targetY - s.currentY) * (s.targetY - s.currentY)) > 0.1 := hgt
    simp [update, distTo, h1, h2', hgt, hgt']
  · have hgt' : ¬(Real.sqrt ((s.targetX - s.currentX) * (s.targetX - s.currentX) +
        (s.targetY - s.currentY) * (s.targetY - s.currentY)) > 0.1) := hgt
    simp [update, distTo, h1, h2', hgt, hgt']

/-- Tick of a moving character within the arrival epsilon with waypoints
left: it snaps onto the current waypoint, advances the path index,
targets the next waypoint and reports `true`. -/
theorem update_snap_advance (dt : ℝ) (s : State) (h1 : s.isMoving = true)
    (h2 : distTo s < 0.1)
    (h3 : 0 < s.path.length ∧ s.currentPathIndex < s.path.length - 1) :
    update dt s =
      ({ s with
          currentRotationY := updateRotation s,
          currentX := s.targetX, currentY := s.targetY,
          currentPathIndex := s.currentPathIndex + 1,
          targetX := ((s.path.get? (s.currentPathIndex + 1)).getD (0, 0)).1,
          targetY := ((s.path.get? (s.currentPathIndex + 1)).getD (0, 0)).2 },
        true) := by
  have h2' : Real.sqrt ((s.targetX - s.currentX) * (s.targetX - s.currentX) +
      (s.targetY - s.currentY) * (s.targetY - s.currentY)) < 0.1 := h2
  have hgt' : ¬(Real.sqrt ((s.targetX - s.currentX) * (s.targetX - s.currentX) +
      (s.targetY - s.currentY) * (s.targetY - s.currentY)) > 0.1) := by
    rw [not_lt]
    exact le_of_lt h2'
  simp [update, h1, h2', hgt', h3]

/-- Tick of a moving character within the arrival epsilon on the last
waypoint: it snaps onto the waypoint, runs the arrival sequence (both
rotation fields snap onto the main direction nearest to the
arrival-facing angle), leaves the Moving state, clears the path and
reports `false`. -/
theorem update_snap_arrive (dt : ℝ) (s : State) (h1 : s.isMoving = true)
    (h2 : distTo s < 0.1)
    (h3 : ¬(0 < s.path.length ∧ s.currentPathIndex < s.path.length - 1)) :
    update dt s =
      ({ s with
          currentRotationY := snapToMainDirection (arrivalTargetRotation
            { s with currentRotationY := updateRotation s,
                     currentX := s.targetX, currentY := s.targetY }),
          targetRotationY := snapToMainDirection (arrivalTargetRotation
            { s with currentRotationY := updateRotation s,
                     currentX := s.targetX, currentY := s.targetY }),
          currentX := s.targetX, currentY := s.targetY,
          isMoving := false, path := [], currentPathIndex := 0,
          finalTargetPosition := none }, false) := by
  have h2' : Real.sqrt ((s.targetX - s.currentX) * (s.targetX - s.currentX) +
      (s.targetY - s.currentY) * (s.targetY - s.currentY)) < 0.1 := h2
  have hgt' : ¬(Real.sqrt ((s.targetX - s.currentX) * (s.targetX - s.currentX) +
      (s.targetY - s.currentY) * (s.targetY - s.currentY)) > 0.1) := by
    rw [not_lt]
    exact le_of_lt h2'
  simp [update, h1, h2', hgt', h3]

/-- Scaling a two-component vector by a nonnegative factor scales its
length. -/
theorem sqrt_scale (c a b : ℝ) (hc : 0 ≤ c) :
    Real.sqrt ((c * a) * (c * a) + (c * b) * (c * b)) =
      c * Real.sqrt (a * a + b * b) := by
  have h : (c * a) * (c * a) + (c * b) * (c * b) = c ^ 2 * (a * a + b * b) := by
    ring
  rw [h, Real.sqrt_mul (sq_nonneg c), Real.sqrt_sq hc]

/-- A movement tick reduces the remaining distance by exactly the step
length `min(moveSpeed·dt, distance)`. -/
theorem distTo_update_move (dt : ℝ) (s : State) (h1 : s.isMoving = true)
    (h2 : ¬(distTo s < 0.1)) :
    distTo (update dt s).1 = distTo s - min (s.moveSpeed * dt) (distTo s) := by
  have hd0 : (0.1 : ℝ) ≤ distTo s := not_lt.mp h2
  have hdpos : 0 < distTo s := lt_of_lt_of_le (by norm_num) hd0
  have hdne : distTo s ≠ 0 := ne_of_gt hdpos
  rw [update_move dt s h1 h2]
  set m := min (s.moveSpeed * dt) (distTo s) with hm
  have hc : 0 ≤ 1 - m / distTo s := by
    rw [sub_nonneg, div_le_one hdpos]
    exact min_le_right _ _
  have hdx : s.targetX - (s.currentX + (s.targetX - s.currentX) / distTo s * m)
      = (1 - m / distTo s) * (s.targetX - s.currentX) := by
    field_simp
    ring
  have hdy : s.targetY - (s.currentY + (s.targetY - s.currentY) / distTo s * m)
      = (1 - m / distTo s) * (s.targetY - s.currentY) := by
    field_simp
    ring
  show Real.sqrt _ = _
  dsimp only
  rw [hdx, hdy, sqrt_scale _ _ _ hc]
  rw [show Real.sqrt ((s.targetX - s.currentX) * (s.targetX - s.currentX) +
      (s.targetY - s.currentY) * (s.targetY - s.currentY)) = distTo s from rfl]
  field_simp

/-- One-step unfolding of the simulation. -/
theorem simulate_succ (dt : ℝ) (n : ℕ) (s : State) :
    simulate dt (n + 1) s = simulate dt n (update dt s).1 := rfl

/-- The simulation composes over tick counts. -/
theorem simulate_add (dt : ℝ) (a b : ℕ) (s : State) :
    simulate dt (a + b) s = simulate dt b (simulate dt a s) := by
  induction a generalizing s with
  | zero => rw [Nat.zero_add]; rfl
  | succ n ih =>
    have h : n + 1 + b = (n + b) + 1 := by omega
    rw [h, simulate_succ, ih, simulate_succ]

/-- An idle character never moves: any number of ticks keeps its
position and its Idle state, and each tick reports `false`. -/
theorem simulate_idle (dt : ℝ) (n : ℕ) (s : State) (h : s.isMoving = false) :
    (simulate dt n s).currentX = s.currentX ∧
    (simulate dt n s).currentY = s.currentY ∧
    (simulate dt n s).isMoving = false := by
  induction n generalizing s with
  | zero => exact ⟨rfl, rfl, h⟩
  | succ n ih =>
    rw [simulate_succ]
    have h1 : (update dt s).1 = { s with currentRotationY := updateRotation s } := by
      rw [update_not_moving dt s h]
    rw [h1]
    have := ih { s with currentRotationY := updateRotation s } (by simpa using h)
    simpa using this

/-- The snap tick: a moving character within the arrival epsilon reaches
the `PostLeg` state of its current leg in exactly one tick. -/
theorem snap_step (dt : ℝ) (s : State) (h1 : s.isMoving = true)
    (hlt : distTo s < 0.1) : PostLeg s (simulate dt 1 s) := by
  rw [show simulate dt 1 s = (update dt s).1 from rfl]
  by_cases h3 : 0 < s.path.length ∧ s.currentPathIndex < s.path.length - 1
  · rw [update_snap_advance dt s h1 hlt h3]
    exact ⟨by simp, by simp, by simp,
      fun _ => ⟨by simp [h1], by simp, by simp, by simp, by simp, by simp⟩,
      fun hcon => absurd h3 hcon⟩
  · rw [update_snap_arrive dt s h1 hlt h3]
    exact ⟨by simp, by simp, by simp,
      fun hcon => absurd hcon h3, fun _ => by simp⟩

/-- Reaching the end of the current leg: if the remaining distance fits
into `n` full steps, then within `n + 1` ticks the character reaches the
`PostLeg` state of its current leg. -/
theorem legReach (dt : ℝ) :
    ∀ (n : ℕ) (s : State), s.isMoving = true → 0 < s.moveSpeed * dt →
      distTo s ≤ n * (s.moveSpeed * dt) →
      ∃ m ≤ n + 1, PostLeg s (simulate dt m s) := by
  intro n
  induction n with
  | zero =>
    intro s h1 hsp hle
    have hlt : distTo s < 0.1 := by
      have h0 : (0 : ℝ) ≤ distTo s := Real.sqrt_nonneg _
      have : distTo s ≤ 0 := by simpa using hle
      linarith
    exact ⟨1, le_rfl, snap_step dt s h1 hlt⟩
  | succ k ih =>
    intro s h1 hsp hle
    by_cases hlt : distTo s < 0.1
    · exact ⟨1, by omega, snap_step dt s h1 hlt⟩
    · have heq := update_move dt s h1 hlt
      have hdist := distTo_update_move dt s h1 hlt
      have hfields :
          (update dt s).1.isMoving = true ∧
          (update dt s).1.moveSpeed = s.moveSpeed ∧
          (update dt s).1.targetX = s.targetX ∧
          (update dt s).1.targetY = s.targetY ∧
          (update dt s).1.path = s.path ∧
          (update dt s).1.currentPathIndex = s.currentPathIndex ∧
          (update dt s).1.finalTargetPosition = s.finalTargetPosition := by
        rw [heq]
        exact ⟨by simp [h1], by simp, by simp, by simp, by simp, by simp, by simp⟩
      have hdist' : distTo (update dt s).1 ≤ k * ((update dt s).1.moveSpeed * dt) := by
        rw [hfields.2.1, hdist]
        by_cases hms : s.moveSpeed * dt ≤ distTo s
        · rw [min_eq_left hms]
          have : distTo s ≤ (k + 1) * (s.moveSpeed * dt) := by
            simpa [Nat.cast_add] using hle
          nlinarith
        · rw [min_eq_right (le_of_not_le hms)]
          have : (0 : ℝ) ≤ k * (s.moveSpeed * dt) := by positivity
          linarith
      obtain ⟨m, hmle, hpost⟩ := ih (update dt s).1 hfields.1
        (by rw [hfields.2.1]; exact hsp) hdist'
      refine ⟨m + 1, by omega, ?_⟩
      rw [show simulate dt (m + 1) s = simulate dt m (update dt s).1 from rfl]
      obtain ⟨p1, p2, p3, p4, p5⟩ := hpost
      refine ⟨by rw [p1, hfields.2.2.1], by rw [p2, hfields.2.2.2.1],
        by rw [p3, hfields.2.1], ?_, ?_⟩
      · intro hcond
        have hcond' : 0 < (update dt s).1.path.length ∧
            (update dt s).1.currentPathIndex < (update dt s).1.path.length - 1 := by
          rw [hfields.2.2.2.2.1, hfields.2.2.2.2.2.1]
          exact hcond
        obtain ⟨q1, q2, q3, q4, q5, q6⟩ := p4 hcond'
        refine ⟨q1, by rw [q2, hfields.2.2.2.2.1], ?_, ?_, ?_, ?_⟩
        · rw [q3, hfields.2.2.2.2.2.1]
        · rw [q4, hfields.2.2.2.2.1, hfields.2.2.2.2.2.1]
        · rw [q5, hfields.2.2.2.2.1, hfields.2.2.2.2.2.1]
        · rw [q6, hfields.2.2.2.2.2.2]
      · intro hcond
        refine p5 ?_
        rw [hfields.2.2.2.2.1, hfields.2.2.2.2.2.1]
        exact hcond

/-- Following the remaining waypoints: a moving character whose path
suffix from its current index is its current target followed by `rest`
arrives — Idle, positioned exactly on the last waypoint — within the
`pathTicks` budget. -/
theorem pathArrive (dt : ℝ) :
    ∀ (rest : List (ℝ × ℝ)) (s : State), s.isMoving = true →
      0 < s.moveSpeed * dt →
      s.path.drop s.currentPathIndex = (s.targetX, s.targetY) :: rest →
      ∃ T ≤ pathTicks (s.moveSpeed * dt) (s.currentX, s.currentY)
          ((s.targetX, s.targetY) :: rest),
        (simulate dt T s).isMoving = false ∧
        ((s.targetX, s.targetY) :: rest).getLast? =
          some ((simulate dt T s).currentX, (simulate dt T s).currentY) := by
  intro rest
  induction rest with
  | nil =>
    intro s h1 hsp hdrop
    have hlen : s.path.length - s.currentPathIndex = 1 := by
      have h := congrArg List.length hdrop
      simpa using h
    have hcond : ¬(0 < s.path.length ∧
        s.currentPathIndex < s.path.length - 1) := by
      omega
    have hle : distTo s ≤
        (⌈distTo s / (s.moveSpeed * dt)⌉₊ : ℝ) * (s.moveSpeed * dt) := by
      have h := Nat.le_ceil (distTo s / (s.moveSpeed * dt))
      rwa [div_le_iff₀ hsp] at h
    obtain ⟨m, hm, hpost⟩ :=
      legReach dt (⌈distTo s / (s.moveSpeed * dt)⌉₊) s h1 hsp hle
    obtain ⟨p1, p2, p3, p4, p5⟩ := hpost
    refine ⟨m, ?_, p5 hcond, ?_⟩
    · have hpt : pathTicks (s.moveSpeed * dt) (s.currentX, s.currentY)
          ((s.targetX, s.targetY) :: ([] : List (ℝ × ℝ))) =
          ⌈distTo s / (s.moveSpeed * dt)⌉₊ + 1 := by
        simp [pathTicks, distTo]
      rw [hpt]
      exact hm
    · rw [p1, p2]
      simp
  | cons w rest' ih =>
    intro s h1 hsp hdrop
    have hlen : 2 ≤ s.path.length - s.currentPathIndex := by
      have h := congrArg List.length hdrop
      simp at h
      omega
    have hcond : 0 < s.path.length ∧
        s.currentPathIndex < s.path.length - 1 := by
      omega
    have hle : distTo s ≤
        (⌈distTo s / (s.moveSpeed * dt)⌉₊ : ℝ) * (s.moveSpeed * dt) := by
      have h := Nat.le_ceil (distTo s / (s.moveSpeed * dt))
      rwa [div_le_iff₀ hsp] at h
    obtain ⟨m, hm, hpost⟩ :=
      legReach dt (⌈distTo s / (s.moveSpeed * dt)⌉₊) s h1 hsp hle
    obtain ⟨p1, p2, p3, p4, p5⟩ := hpost
    obtain ⟨q1, q2, q3, q4, q5, q6⟩ := p4 hcond
    have hdrop1 : s.path.drop (s.currentPathIndex + 1) = w :: rest' := by
      rw [← List.tail_drop, hdrop]
      rfl
    have hget : s.path.get? (s.currentPathIndex + 1) = some w := by
      have h := congrArg List.head? hdrop1
      rw [List.head?_drop] at h
      rw [List.get?_eq_getElem?]
      simpa using h
    have htx : (simulate dt m s).targetX = w.1 := by rw [q4, hget]; rfl
    have hty : (simulate dt m s).targetY = w.2 := by rw [q5, hget]; rfl
    have hdrop' : (simulate dt m s).path.drop
        (simulate dt m s).currentPathIndex =
        ((simulate dt m s).targetX, (simulate dt m s).targetY) :: rest' := by
      rw [q2, q3, htx, hty, hdrop1]
    obtain ⟨T, hT, r1, r2⟩ := ih (simulate dt m s) q1
      (by rw [p3]; exact hsp) hdrop'
    refine ⟨m + T, ?_, ?_, ?_⟩
    · have hpt : pathTicks (s.moveSpeed * dt) (s.currentX, s.currentY)
          ((s.targetX, s.targetY) :: w :: rest') =
          (⌈distTo s / (s.moveSpeed * dt)⌉₊ + 1) +
            pathTicks (s.moveSpeed * dt) (s.targetX, s.targetY)
              (w :: rest') := by
        simp [pathTicks, distTo]
      rw [hpt]
      have hT' : T ≤ pathTicks (s.moveSpeed * dt) (s.targetX, s.targetY)
          (w :: rest') := by
        rw [p3, p1, p2, htx, hty] at hT
        simpa using hT
      omega
    · rw [simulate_add]
      exact r1
    · rw [simulate_add]
      rw [htx, hty] at r2
      rw [List.getLast?_cons_cons]
      simpa using r2

/-- The angle normalization loops land in `[-π, π]`. -/
theorem normalizeAngle_mem (a : ℝ) :
    normalizeAngle a ∈ Set.Icc (-Real.pi) Real.pi := by
  have hpi : (0 : ℝ) < Real.pi := Real.pi_pos
  have h2pi : (0 : ℝ) < 2 * Real.pi := by linarith
  have h2pine : (2 : ℝ) * Real.pi ≠ 0 := ne_of_gt h2pi
  unfold normalizeAngle
  split_ifs with hgt hlt
  · constructor
    · have hc := Int.ceil_lt_add_one ((a - Real.pi) / (2 * Real.pi))
      have h := mul_lt_mul_of_pos_left hc h2pi
      rw [mul_add, mul_one, mul_div_cancel₀ _ h2pine] at h
      linarith
    · have hc := Int.le_ceil ((a - Real.pi) / (2 * Real.pi))
      have h := mul_le_mul_of_nonneg_left hc (le_of_lt h2pi)
      rw [mul_div_cancel₀ _ h2pine] at h
      linarith
  · constructor
    · have hc := Int.le_ceil ((-Real.pi - a) / (2 * Real.pi))
      have h := mul_le_mul_of_nonneg_left hc (le_of_lt h2pi)
      rw [mul_div_cancel₀ _ h2pine] at h
      linarith
    · have hc := Int.ceil_lt_add_one ((-Real.pi - a) / (2 * Real.pi))
      have h := mul_lt_mul_of_pos_left hc h2pi
      rw [mul_add, mul_one, mul_div_cancel₀ _ h2pine] at h
      linarith
  · exact ⟨not_lt.mp hlt, not_lt.mp hgt⟩

/-- The rotation computed by `calculateIsoRotation` stays in `[-π, π]`
whenever the current target rotation (its guard fallback) does. -/
theorem calculateIsoRotation_mem (dx dy tgt : ℝ)
    (h : tgt ∈ Set.Icc (-Real.pi) Real.pi) :
    calculateIsoRotation dx dy tgt ∈ Set.Icc (-Real.pi) Real.pi := by
  unfold calculateIsoRotation
  dsimp only
  split_ifs
  · exact h
  · exact normalizeAngle_mem _
  · exact normalizeAngle_mem _

/-- The arrival-facing angle stays in `[-π, π]` whenever the current
target rotation does. -/
theorem arrivalTargetRotation_mem (s : State)
    (h : s.targetRotationY ∈ Set.Icc (-Real.pi) Real.pi) :
    arrivalTargetRotation s ∈ Set.Icc (-Real.pi) Real.pi := by
  unfold arrivalTargetRotation
  cases hft : s.finalTargetPosition with
  | none => exact h
  | some ft =>
    dsimp only
    split_ifs
    · exact calculateIsoRotation_mem _ _ _ h
    · exact h

/-- For a target angle already in `[-π, π]`, the seed distance
`|t - 0|` of the snap scan equals the wraparound-aware distance of the
normalized target from direction `0`, so the seed is consistent with the
scanned candidates. -/
theorem wrapDiff_zero_eq_abs (t : ℝ) (h : t ∈ Set.Icc (-Real.pi) Real.pi) :
    wrapDiff (normalize0TwoPi t) 0 = |t - 0| := by
  obtain ⟨hl, hr⟩ := h
  have hpi : (0 : ℝ) < Real.pi := Real.pi_pos
  have h2pi : (0 : ℝ) < 2 * Real.pi := by linarith
  unfold wrapDiff normalize0TwoPi
  by_cases ht : 0 ≤ t
  · have hfloor : ⌊t / (2 * Real.pi)⌋ = 0 := by
      rw [Int.floor_eq_zero_iff]
      constructor
      · exact div_nonneg ht (le_of_lt h2pi)
      · rw [div_lt_one h2pi]
        linarith
    rw [hfloor]
    have e0 : t - 2 * Real.pi * ((0 : ℤ) : ℝ) = t := by push_cast; ring
    rw [e0, sub_zero]
    have e2 : |t - (0 + 2 * Real.pi)| = 2 * Real.pi - t := by
      rw [abs_of_nonpos (by linarith)]
      ring
    have e3 : |t - (0 - 2 * Real.pi)| = t + 2 * Real.pi := by
      rw [abs_of_nonneg (by linarith)]
      ring
    rw [e2, e3, abs_of_nonneg ht]
    exact min_eq_left (le_min (by linarith) (by linarith))
  · have htneg : t < 0 := lt_of_not_ge ht
    have hfloor : ⌊t / (2 * Real.pi)⌋ = -1 := by
      rw [Int.floor_eq_iff]
      constructor
      · push_cast
        rw [neg_le, ← neg_div]
        rw [div_le_one h2pi]
        linarith
      · push_cast
        rw [div_lt_iff₀ h2pi]
        linarith
    rw [hfloor]
    have e0 : t - 2 * Real.pi * ((-1 : ℤ) : ℝ) = t + 2 * Real.pi := by
      push_cast
      ring
    rw [e0, sub_zero]
    have e1 : |t + 2 * Real.pi| = t + 2 * Real.pi := by
      rw [abs_of_nonneg (by linarith)]
    have e2 : |t + 2 * Real.pi - (0 + 2 * Real.pi)| = -t := by
      rw [show t + 2 * Real.pi - (0 + 2 * Real.pi) = t by ring]
      exact abs_of_neg htneg
    have e3 : |t + 2 * Real.pi - (0 - 2 * Real.pi)| = t + 4 * Real.pi := by
      rw [abs_of_nonneg (by linarith)]
      ring
    rw [sub_zero, e1, e2, e3, abs_of_neg htneg]
    rw [min_eq_left (by linarith : -t ≤ t + 4 * Real.pi)]
    exact min_eq_right (by linarith : -t ≤ t + 2 * Real.pi)

/-- Specification of `snapToMainDirection` for a target angle in
`[-π, π]`: the result is one of the four main directions, and its
wraparound-aware distance from the normalized target is minimal among
all main directions. -/
theorem snapToMainDirection_spec (t : ℝ)
    (h : t ∈ Set.Icc (-Real.pi) Real.pi) :
    (snapToMainDirection t = 0 ∨ snapToMainDirection t = Real.pi / 2 ∨
     snapToMainDirection t = Real.pi ∨
     snapToMainDirection t = 3 * Real.pi / 2) ∧
    ∀ c ∈ mainDirections,
      wrapDiff (normalize0TwoPi t) (snapToMainDirection t) ≤
        wrapDiff (normalize0TwoPi t) c := by
  have hseed : |t - 0| = wrapDiff (normalize0TwoPi t) 0 :=
    (wrapDiff_zero_eq_abs t h).symm
  obtain ⟨hmem, heq, hle, hmin⟩ :=
    foldlMin_spec (wrapDiff (normalize0TwoPi t)) mainDirections 0 |t - 0| hseed
  constructor
  · show snapToMainDirection t = 0 ∨ _
    unfold snapToMainDirection
    rcases hmem with hm | hm
    · exact Or.inl hm
    · simpa [mainDirections] using hm
  · intro c hc
    show wrapDiff _ (snapToMainDirection t) ≤ _
    unfold snapToMainDirection
    rw [← heq]
    exact hmin c hc

/-- C5 (amended): each tick of a moving character either snaps onto the
current waypoint when the remaining distance is below the arrival
epsilon `0.1` — advancing the waypoint index and returning `true`, or on
the last waypoint arriving and returning `false` — or moves exactly
`min(moveSpeed·dt, distance)` along the straight line toward the current
waypoint and returns `true`; and after simulating
`Σ_legs ⌈legLength/(moveSpeed·dt)⌉ + N` ticks for a path of `N`
waypoints (one snap tick per waypoint — not the claimed
`⌈totalPathLength/(moveSpeed·dt)⌉` ticks, which the counterexample
refutes), `tick()` returns `false` and the current position equals the
final waypoint exactly, hence within the arrival epsilon. -/
theorem c5_motionArrival (dt : ℝ) (ws : List (ℝ × ℝ)) (ft : Option (ℝ × ℝ))
    (s0 : State) (hne : ws ≠ []) (hsp : 0 < s0.moveSpeed * dt) :
    (∀ s : State, s.isMoving = true → ¬(distTo s < 0.1) →
      (update dt s).2 = true ∧
      (update dt s).1.currentX = s.currentX + (s.targetX - s.currentX) /
        distTo s * min (s.moveSpeed * dt) (distTo s) ∧
      (update dt s).1.currentY = s.currentY + (s.targetY - s.currentY) /
        distTo s * min (s.moveSpeed * dt) (distTo s) ∧
      distTo (update dt s).1 = distTo s - min (s.moveSpeed * dt) (distTo s)) ∧
    (∀ s : State, s.isMoving = true → distTo s < 0.1 →
      (0 < s.path.length ∧ s.currentPathIndex < s.path.length - 1) →
      (update dt s).2 = true ∧ (update dt s).1.currentX = s.targetX ∧
      (update dt s).1.currentY = s.targetY ∧
      (update dt s).1.currentPathIndex = s.currentPathIndex + 1) ∧
    (∀ s : State, s.isMoving = true → distTo s < 0.1 →
      ¬(0 < s.path.length ∧ s.currentPathIndex < s.path.length - 1) →
      (update dt s).2 = false ∧ (update dt s).1.currentX = s.targetX ∧
      (update dt s).1.currentY = s.targetY ∧
      (update dt s).1.isMoving = false) ∧
    ((simulate dt (pathTicks (s0.moveSpeed * dt) (s0.currentX, s0.currentY) ws)
        (moveAlongPath ws ft s0)).isMoving = false ∧
     ws.getLast? = some
       ((simulate dt (pathTicks (s0.moveSpeed * dt) (s0.currentX, s0.currentY) ws)
          (moveAlongPath ws ft s0)).currentX,
        (simulate dt (pathTicks (s0.moveSpeed * dt) (s0.currentX, s0.currentY) ws)
          (moveAlongPath ws ft s0)).currentY) ∧
     (update dt (simulate dt
        (pathTicks (s0.moveSpeed * dt) (s0.currentX, s0.currentY) ws)
        (moveAlongPath ws ft s0))).2 = false) := by
  refine ⟨?_, ?_, ?_, ?_⟩
  · intro s h1 h2
    have heq := update_move dt s h1 h2
    exact ⟨by rw [heq], by rw [heq], by rw [heq],
      distTo_update_move dt s h1 h2⟩
  · intro s h1 h2 h3
    have heq := update_snap_advance dt s h1 h2 h3
    exact ⟨by rw [heq], by rw [heq], by rw [heq], by rw [heq]⟩
  · intro s h1 h2 h3
    have heq := update_snap_arrive dt s h1 h2 h3
    exact ⟨by rw [heq], by rw [heq], by rw [heq], by rw [heq]⟩
  · cases ws with
    | nil => exact absurd rfl hne
    | cons p rest =>
      have hmov : (moveAlongPath (p :: rest) ft s0).isMoving = true := by
        simp [moveAlongPath]
      have hspeed : (moveAlongPath (p :: rest) ft s0).moveSpeed = s0.moveSpeed := by
        simp [moveAlongPath]
      have hcx : (moveAlongPath (p :: rest) ft s0).currentX = s0.currentX := by
        simp [moveAlongPath]
      have hcy : (moveAlongPath (p :: rest) ft s0).currentY = s0.currentY := by
        simp [moveAlongPath]
      have htx : (moveAlongPath (p :: rest) ft s0).targetX = p.1 := by
        simp [moveAlongPath]
      have hty : (moveAlongPath (p :: rest) ft s0).targetY = p.2 := by
        simp [moveAlongPath]
      have hdrop : (moveAlongPath (p :: rest) ft s0).path.drop
          (moveAlongPath (p :: rest) ft s0).currentPathIndex =
          ((moveAlongPath (p :: rest) ft s0).targetX,
           (moveAlongPath (p :: rest) ft s0).targetY) :: rest := by
        simp [moveAlongPath]
      obtain ⟨T, hT, r1, r2⟩ := pathArrive dt rest (moveAlongPath (p :: rest) ft s0)
        hmov (by rw [hspeed]; exact hsp) hdrop
      have hTle : T ≤ pathTicks (s0.moveSpeed * dt) (s0.currentX, s0.currentY)
          (p :: rest) := by
        rw [hspeed, hcx, hcy, htx, hty] at hT
        simpa using hT
      have hB : pathTicks (s0.moveSpeed * dt) (s0.currentX, s0.currentY)
          (p :: rest) = T + (pathTicks (s0.moveSpeed * dt)
            (s0.currentX, s0.currentY) (p :: rest) - T) := by
        omega
      rw [hB, simulate_add]
      obtain ⟨i1, i2, i3⟩ := simulate_idle dt _
        (simulate dt T (moveAlongPath (p :: rest) ft s0)) r1
      refine ⟨i3, ?_, ?_⟩
      · rw [i1, i2]
        rw [htx, hty] at r2
        simpa using r2
      · rw [update_not_moving dt _ i3]

/-- Counterexample to C5 as stated: take the two-waypoint path
`[(0,8), (0,16)]` from the origin with the source speed `6000` px/s and
tick size `dt = 1/750` s, so one full step covers `8` px, the total path
length is `16`, and the claimed tick count is
`⌈totalPathLength/(speed·dt)⌉ = ⌈16/8⌉ = 2`.  After simulating 2 ticks
the character still stands on the first waypoint `(0, 8)` — the second
tick was spent snapping onto it and advancing the index — which is `8`
away from the final waypoint (not within the `0.1` arrival epsilon),
and the next `tick()` returns `true`, not `false`. -/
theorem c5_motionArrival_counterexample :
    ⌈(16 : ℝ) / (6000 * (1 / 750))⌉₊ = 2 ∧
    (simulate (1 / 750) 2
      (moveAlongPath [(0, 8), (0, 16)] none initial)).currentX = 0 ∧
    (simulate (1 / 750) 2
      (moveAlongPath [(0, 8), (0, 16)] none initial)).currentY = 8 ∧
    ¬(|(simulate (1 / 750) 2
        (moveAlongPath [(0, 8), (0, 16)] none initial)).currentY - 16| < 0.1) ∧
    (update (1 / 750) (simulate (1 / 750) 2
      (moveAlongPath [(0, 8), (0, 16)] none initial))).2 = true := by
  have hS : moveAlongPath [((0 : ℝ), (8 : ℝ)), ((0 : ℝ), (16 : ℝ))] none initial =
      ⟨0, 0, 0, 8, true, 6000, [(0, 8), (0, 16)], 0, none, 0, 0⟩ := rfl
  set S : State := ⟨0, 0, 0, 8, true, 6000, [(0, 8), (0, 16)], 0, none, 0, 0⟩
    with hSdef
  have hd1 : distTo S = 8 := by
    unfold distTo
    rw [hSdef]
    dsimp only
    rw [show ((0 : ℝ) - 0) * (0 - 0) + (8 - 0) * (8 - 0) = 8 ^ 2 by norm_num]
    exact Real.sqrt_sq (by norm_num)
  have hnl : ¬(distTo S < 0.1) := by rw [hd1]; norm_num
  have hmov : S.isMoving = true := rfl
  have e1 := update_move (1 / 750) S hmov hnl
  have hx1 : (update (1 / 750) S).1.currentX = 0 := by
    rw [e1]
    show S.currentX + (S.targetX - S.currentX) / distTo S *
      min (S.moveSpeed * (1 / 750)) (distTo S) = 0
    rw [hd1]
    show (0 : ℝ) + (0 - 0) / 8 * min ((6000 : ℝ) * (1 / 750)) 8 = 0
    norm_num
  have hy1 : (update (1 / 750) S).1.currentY = 8 := by
    rw [e1]
    show S.currentY + (S.targetY - S.currentY) / distTo S *
      min (S.moveSpeed * (1 / 750)) (distTo S) = 8
    rw [hd1]
    show (0 : ℝ) + (8 - 0) / 8 * min ((6000 : ℝ) * (1 / 750)) 8 = 8
    norm_num
  have htx1 : (update (1 / 750) S).1.targetX = 0 := by rw [e1]
  have hty1 : (update (1 / 750) S).1.targetY = 8 := by rw [e1]
  have hpath1 : (update (1 / 750) S).1.path = [(0, 8), (0, 16)] := by rw [e1]
  have hidx1 : (update (1 / 750) S).1.currentPathIndex = 0 := by rw [e1]
  have hmov1 : (update (1 / 750) S).1.isMoving = true := by rw [e1]
  have hsp1 : (update (1 / 750) S).1.moveSpeed = 6000 := by rw [e1]
  have hd2 : distTo (update (1 / 750) S).1 = 0 := by
    rw [distTo_update_move (1 / 750) S hmov hnl, hd1]
    norm_num
  have hlt2 : distTo (update (1 / 750) S).1 < 0.1 := by rw [hd2]; norm_num
  have hcond2 : 0 < (update (1 / 750) S).1.path.length ∧
      (update (1 / 750) S).1.currentPathIndex <
        (update (1 / 750) S).1.path.length - 1 := by
    rw [hpath1, hidx1]
    norm_num
  have e2 := update_snap_advance (1 / 750) (update (1 / 750) S).1 hmov1 hlt2 hcond2
  have hx2 : (update (1 / 750) (update (1 / 750) S).1).1.currentX = 0 := by
    rw [e2]
    show (update (1 / 750) S).1.targetX = 0
    exact htx1
  have hy2 : (update (1 / 750) (update (1 / 750) S).1).1.currentY = 8 := by
    rw [e2]
    show (update (1 / 750) S).1.targetY = 8
    exact hty1
  have htx2 : (update (1 / 750) (update (1 / 750) S).1).1.targetX = 0 := by
    rw [e2]
    show (((update (1 / 750) S).1.path.get?
      ((update (1 / 750) S).1.currentPathIndex + 1)).getD (0, 0)).1 = 0
    rw [hpath1, hidx1]
    rfl
  have hty2 : (update (1 / 750) (update (1 / 750) S).1).1.targetY = 16 := by
    rw [e2]
    show (((update (1 / 750) S).1.path.get?
      ((update (1 / 750) S).1.currentPathIndex + 1)).getD (0, 0)).2 = 16
    rw [hpath1, hidx1]
    rfl
  have hmov2 : (update (1 / 750) (update (1 / 750) S).1).1.isMoving = true := by
    rw [e2]
    show (update (1 / 750) S).1.isMoving = true
    exact hmov1
  have hd3 : distTo (update (1 / 750) (update (1 / 750) S).1).1 = 8 := by
    unfold distTo
    rw [hx2, hy2, htx2, hty2]
    rw [show ((0 : ℝ) - 0) * (0 - 0) + (16 - 8) * (16 - 8) = 8 ^ 2 by norm_num]
    exact Real.sqrt_sq (by norm_num)
  have hsim2 : simulate (1 / 750) 2
      (moveAlongPath [((0 : ℝ), (8 : ℝ)), ((0 : ℝ), (16 : ℝ))] none initial) =
      (update (1 / 750) (update (1 / 750) S).1).1 := by
    rw [hS]
    rfl
  refine ⟨?_, ?_, ?_, ?_, ?_⟩
  · rw [show (16 : ℝ) / (6000 * (1 / 750)) = 2 by norm_num]
    simp
  · rw [hsim2]; exact hx2
  · rw [hsim2]; exact hy2
  · rw [hsim2, hy2]
    norm_num
  · rw [hsim2]
    have e3 := update_move (1 / 750) (update (1 / 750) (update (1 / 750) S).1).1
      hmov2 (by rw [hd3]; norm_num)
    rw [e3]

/-- Witness for the amended C5 on the one-waypoint path `[(0, 8)]` with
the default state and `dt = 1/750`. -/
theorem c5_motionArrival_witness :
    ([((0 : ℝ), (8 : ℝ))] ≠ [] ∧
      (0 : ℝ) < initial.moveSpeed * (1 / 750)) ∧
    ((simulate (1 / 750) (pathTicks (initial.moveSpeed * (1 / 750))
        (initial.currentX, initial.currentY) [(0, 8)])
        (moveAlongPath [(0, 8)] none initial)).isMoving = false ∧
     ([((0 : ℝ), (8 : ℝ))]).getLast? = some
       ((simulate (1 / 750) (pathTicks (initial.moveSpeed * (1 / 750))
          (initial.currentX, initial.currentY) [(0, 8)])
          (moveAlongPath [(0, 8)] none initial)).currentX,
        (simulate (1 / 750) (pathTicks (initial.moveSpeed * (1 / 750))
          (initial.currentX, initial.currentY) [(0, 8)])
          (moveAlongPath [(0, 8)] none initial)).currentY) ∧
     (update (1 / 750) (simulate (1 / 750)
        (pathTicks (initial.moveSpeed * (1 / 750))
          (initial.currentX, initial.currentY) [(0, 8)])
        (moveAlongPath [(0, 8)] none initial))).2 = false) :=
  ⟨⟨by simp, by norm_num [initial]⟩,
    (c5_motionArrival (1 / 750) [(0, 8)] none initial (by simp)
      (by norm_num [initial])).2.2.2⟩

/-- C6: a tick that arrives at the end of a path leaves the current
facing angle exactly at one of the four canonical directions
`{0, π/2, π, 3π/2}` (hence within any floating tolerance), and among the
canonical directions it is one whose wraparound-aware distance from the
computed arrival-facing angle (the direction toward the final facing
target when one is set and beyond the guard, else the previous target
angle) is minimal. -/
theorem c6_facingSnap (dt : ℝ) (s : State)
    (h1 : s.isMoving = true) (h2 : distTo s < 0.1)
    (h3 : ¬(0 < s.path.length ∧ s.currentPathIndex < s.path.length - 1))
    (h4 : s.targetRotationY ∈ Set.Icc (-Real.pi) Real.pi) :
    ((update dt s).1.currentRotationY = 0 ∨
     (update dt s).1.currentRotationY = Real.pi / 2 ∨
     (update dt s).1.currentRotationY = Real.pi ∨
     (update dt s).1.currentRotationY = 3 * Real.pi / 2) ∧
    ∀ c ∈ mainDirections,
      wrapDiff (normalize0TwoPi (arrivalTargetRotation
          { s with currentRotationY := updateRotation s,
                   currentX := s.targetX, currentY := s.targetY }))
        ((update dt s).1.currentRotationY) ≤
      wrapDiff (normalize0TwoPi (arrivalTargetRotation
          { s with currentRotationY := updateRotation s,
                   currentX := s.targetX, currentY := s.targetY })) c := by
  have heq := update_snap_arrive dt s h1 h2 h3
  have hrot : (update dt s).1.currentRotationY =
      snapToMainDirection (arrivalTargetRotation
        { s with currentRotationY := updateRotation s,
                 currentX := s.targetX, currentY := s.targetY }) := by
    rw [heq]
  have hmem : arrivalTargetRotation
      { s with currentRotationY := updateRotation s,
               currentX := s.targetX, currentY := s.targetY } ∈
      Set.Icc (-Real.pi) Real.pi :=
    arrivalTargetRotation_mem _ (by simpa using h4)
  obtain ⟨hset, hmin⟩ := snapToMainDirection_spec _ hmem
  rw [hrot]
  exact ⟨hset, hmin⟩

/-- Witness for C6: an arrival tick from the default state (already on
its target, empty path) leaves the facing on a canonical direction. -/
theorem c6_facingSnap_witness :
    distTo { initial with isMoving := true } < 0.1 ∧
    ((update 1 { initial with isMoving := true }).1.currentRotationY = 0 ∨
     (update 1 { initial with isMoving := true }).1.currentRotationY =
       Real.pi / 2 ∨
     (update 1 { initial with isMoving := true }).1.currentRotationY =
       Real.pi ∨
     (update 1 { initial with isMoving := true }).1.currentRotationY =
       3 * Real.pi / 2) := by
  have h2 : distTo ({ initial with isMoving := true } : State) < 0.1 := by
    unfold distTo
    rw [show (({ initial with isMoving := true } : State).targetX -
        ({ initial with isMoving := true } : State).currentX) *
        (({ initial with isMoving := true } : State).targetX -
        ({ initial with isMoving := true } : State).currentX) +
        (({ initial with isMoving := true } : State).targetY -
        ({ initial with isMoving := true } : State).currentY) *
        (({ initial with isMoving := true } : State).targetY -
        ({ initial with isMoving := true } : State).currentY) = 0
      from by norm_num [initial], Real.sqrt_zero]
    norm_num
  have h4 : ({ initial with isMoving := true } : State).targetRotationY ∈
      Set.Icc (-Real.pi) Real.pi := by
    rw [show ({ initial with isMoving := true } : State).targetRotationY = 0
      from rfl]
    constructor
    · linarith [Real.pi_pos]
    · linarith [Real.pi_pos]
  exact ⟨h2, (c6_facingSnap 1 _ rfl h2 (by simp [initial]) h4).1⟩

/-- C8: every direction computation guards against (near-)zero vectors
before normalizing: `calculateIsoRotation` returns the current target
rotation unchanged below the guard length, `rotateTowardsPosition` is a
no-op at or below the guard length, a remaining distance below the
arrival epsilon is treated as already arrived (position snaps onto the
target, no normalization runs), and whenever the moving branch divides
by the distance that distance is positive. -/
theorem c8_nearZeroGuards (dt : ℝ) :
    (∀ dx dy tgt : ℝ, Real.sqrt (dx * dx + dy * dy) < 0.1 →
      calculateIsoRotation dx dy tgt = tgt) ∧
    (∀ (tx ty : ℝ) (s : State), s.isMoving = false →
      ¬(Real.sqrt ((tx - s.currentX) * (tx - s.currentX) +
          (ty - s.currentY) * (ty - s.currentY)) > 0.1) →
      rotateTowardsPosition tx ty s = s) ∧
    (∀ s : State, s.isMoving = true → distTo s < 0.1 →
      (update dt s).1.currentX = s.targetX ∧
      (update dt s).1.currentY = s.targetY) ∧
    (∀ s : State, s.isMoving = true → ¬(distTo s < 0.1) → 0 < distTo s) := by
  refine ⟨?_, ?_, ?_, ?_⟩
  · intro dx dy tgt h
    simp [calculateIsoRotation, h]
  · intro tx ty s hmov hguard
    simp [rotateTowardsPosition, hmov, hguard]
  · intro s h1 h2
    by_cases h3 : 0 < s.path.length ∧ s.currentPathIndex < s.path.length - 1
    · have heq := update_snap_advance dt s h1 h2 h3
      exact ⟨by rw [heq], by rw [heq]⟩
    · have heq := update_snap_arrive dt s h1 h2 h3
      exact ⟨by rw [heq], by rw [heq]⟩
  · intro s _ h2
    have h := not_lt.mp h2
    linarith

/-- Witness for C8: the zero vector stays below the guard and
`calculateIsoRotation` returns the target rotation `5` unchanged. -/
theorem c8_nearZeroGuards_witness :
    Real.sqrt ((0 : ℝ) * 0 + 0 * 0) < 0.1 ∧
    calculateIsoRotation 0 0 5 = 5 := by
  have h : Real.sqrt ((0 : ℝ) * 0 + 0 * 0) < 0.1 := by
    rw [show (0 : ℝ) * 0 + 0 * 0 = 0 by norm_num, Real.sqrt_zero]
    norm_num
  exact ⟨h, (c8_nearZeroGuards 0).1 0 0 5 h⟩

/-- C10: while the character is moving, a pointer-tracking rotation
request leaves the entire state unchanged (including the target facing
angle); pointer hover can influence facing only when idle. -/
theorem c10_pointerIgnoredWhileMoving (targetX targetY : ℝ) (s : State)
    (h : s.isMoving = true) :
    rotateTowardsPosition targetX targetY s = s := by
  unfold rotateTowardsPosition
  rw [if_pos h]

/-- Witness for C10 at a concrete moving state and pointer `(5, 7)`. -/
theorem c10_pointerIgnoredWhileMoving_witness :
    ({ initial with isMoving := true } : State).isMoving = true ∧
    rotateTowardsPosition 5 7 { initial with isMoving := true } =
      { initial with isMoving := true } :=
  ⟨rfl, c10_pointerIgnoredWhileMoving 5 7 _ rfl⟩

end Character3D

/-- C7: a click whose effective goal is unreachable from the start cell
(no walkable 8-connected chain joins them) makes `findPath` return the
empty sequence; an empty path makes `moveAlongPath` a no-op (so no
movement is initiated, not an error), and an idle character's position
never changes over any number of subsequent ticks, each of which
reports `false`. -/
theorem c7_unreachableNoMove (g : PFGrid) (start goal : Cell)
    (hunreach : ¬∃ p : List Cell, ValidChain g start goal p) :
    findPath g start goal = [] ∧
    (∀ (ft : Option (ℝ × ℝ)) (s : Character3D.State),
      Character3D.moveAlongPath [] ft s = s) ∧
    (∀ (dt : ℝ) (n : ℕ) (s : Character3D.State), s.isMoving = false →
      (Character3D.simulate dt n s).currentX = s.currentX ∧
      (Character3D.simulate dt n s).currentY = s.currentY ∧
      (Character3D.update dt (Character3D.simulate dt n s)).2 = false) := by
  refine ⟨?_, fun ft s => rfl, fun dt n s h => ?_⟩
  · by_cases hne : findPath g start goal = []
    · exact hne
    · exfalso
      obtain ⟨hh, hl, hw, hc⟩ := findPath_sound g start goal hne
      exact hunreach ⟨findPath g start goal, hh, hl, hw,
        hc.imp fun a b hab => hab.1⟩
  · obtain ⟨e1, e2, e3⟩ := Character3D.simulate_idle dt n s h
    exact ⟨e1, e2, by rw [Character3D.update_not_moving dt _ e3]⟩

/-- Witness for C7: on the 2×2 grid whose cell `(1,1)` is blocked, the
goal `(1,1)` is unreachable from `(0,0)` and the planner returns the
empty path. -/
theorem c7_unreachableNoMove_witness :
    (¬∃ p : List Cell,
      ValidChain ⟨[[0, 0], [0, 1]]⟩ ((0 : ℤ), (0 : ℤ)) ((1 : ℤ), (1 : ℤ)) p) ∧
    findPath ⟨[[0, 0], [0, 1]]⟩ ((0 : ℤ), (0 : ℤ)) ((1 : ℤ), (1 : ℤ)) = [] := by
  have hu : ¬∃ p : List Cell,
      ValidChain ⟨[[0, 0], [0, 1]]⟩ ((0 : ℤ), (0 : ℤ)) ((1 : ℤ), (1 : ℤ)) p := by
    rintro ⟨p, hh, hl, hw, hchain⟩
    have hmem : ((1 : ℤ), (1 : ℤ)) ∈ p := by
      obtain ⟨hne, heq⟩ := List.mem_getLast?_eq_getLast
        (show ((1 : ℤ), (1 : ℤ)) ∈ p.getLast? by rw [Option.mem_def]; exact hl)
      rw [heq]
      exact List.getLast_mem hne
    have hwalk := hw _ hmem
    rw [show PFGrid.isWalkableAt ⟨[[0, 0], [0, 1]]⟩ ((1 : ℤ), (1 : ℤ)) = false
      from by decide] at hwalk
    simp at hwalk
  exact ⟨hu, (c7_unreachableNoMove _ _ _ hu).1⟩

end IsoGame
